import Mathlib

/-!
Shallow embedding of the `.osu` beatmap parser and attribute adjuster of the
akatsuki-pp repository (`src/parse/mod.rs`, `src/parse/attributes.rs`,
`src/parse/hitobject.rs`), together with theorems settling the frozen claims.

Modelling conventions:
* Rust strings are modelled as `List Char` (`Str`); the input byte stream is
  modelled as the list of its lines (what `read_line` produces, minus the
  trailing newline, which `trim_end` removes anyway).
* IEEE floating point (`f32`/`f64`) is modelled by the type `F`: an exact
  rational for every finite value plus `inf`, `ninf` and `nan`.  Rounding of
  arithmetic and of decimal literals is not modelled (rationals are exact);
  the negative zero is identified with zero.  Comparisons, `max`, `min` and
  the sign rules for non-finite operands follow IEEE as implemented by Rust.
* `sort_unstable_by`/`sort_by` with the `partial_cmp … unwrap_or(Equal)`
  comparator are modelled by an insertion sort with the Boolean relation
  `le a b := cmp a b ≠ Greater`; the model relies only on the result being a
  permutation that is sorted w.r.t. the comparator, which both the stable and
  the unstable Rust sorts guarantee.
* Out-of-bounds vector indexing in the Rust source (a panic) is modelled by
  the distinguished error `ParseError.indexOutOfBounds`; the top-level parse
  loop carries fuel (`lines.length + 1`, always sufficient in reality) and
  signals the artificial `ParseError.fuelExhausted` if it ever ran out.
-/

/-- Rust `&str`, modelled as a list of characters. -/
abbrev Str := List Char

/-! ## String helpers (models of the `str` methods used by the parser) -/

/-- Model of Rust `str::trim_end` (drop trailing whitespace). -/
def trimEnd (s : Str) : Str := (s.reverse.dropWhile Char.isWhitespace).reverse

/-- Model of Rust `str::trim_start` (drop leading whitespace). -/
def trimStart (s : Str) : Str := s.dropWhile Char.isWhitespace

/-- Model of Rust `str::trim`. -/
def trimBoth (s : Str) : Str := trimEnd (trimStart s)

/-- Model of Rust `str::split(sep)` for a single-character pattern:
`"".split(c)` yields one empty piece, and every separator starts a new piece. -/
def splitOnChar (sep : Char) : Str → List Str
  | [] => [[]]
  | c :: rest =>
    let r := splitOnChar sep rest
    if c = sep then [] :: r
    else
      match r with
      | h :: t => (c :: h) :: t
      | [] => [[c]]

/-- Model of Rust `str::find(pat)` for a string pattern: index (in characters)
of the first occurrence of `pat`, if any. -/
def findSubstrIdx (pat : Str) : Str → Option Nat
  | [] => if pat = [] then some 0 else none
  | c :: rest =>
    if pat.isPrefixOf (c :: rest) then some 0
    else (findSubstrIdx pat rest).map (· + 1)

/-- Slice `l[s..e]` of a list (used to model Rust slice expressions). -/
def listSlice (l : List α) (s e : Nat) : List α := (l.drop s).take (e - s)

/-! ## Numeric literal parsing

Models of Rust's `str::parse` for unsigned integers and floats.  Integer
parsing accepts an optional leading `+` and decimal digits, with the
overflow bound of the target type.  Float parsing accepts an optional sign,
`inf`/`infinity`/`nan` (case-insensitively), or a decimal mantissa with an
optional exponent; the exact rational value of the literal is retained
(rounding to the nearest float is not modelled, and literals too large for
the float type are not overflowed to infinity). -/

/-- The numeric value of a decimal digit. -/
def digitVal (c : Char) : Option Nat :=
  if c.isDigit then some (c.toNat - 48) else none

/-- Fold a digit string into a number; `none` if empty or non-digit. -/
def parseDigits (s : Str) : Option Nat :=
  match s with
  | [] => none
  | _ =>
    s.foldl (fun acc c =>
      match acc, digitVal c with
      | some n, some d => some (n * 10 + d)
      | _, _ => none) (some 0)

/-- Model of `str::parse::<uN>` minus the sign: digits with an upper bound. -/
def parseBoundedNat (bound : Nat) (s : Str) : Option Nat :=
  let body := match s with
    | '+' :: rest => rest
    | _ => s
  match parseDigits body with
  | some n => if n < bound then some n else none
  | none => none

/-- Model of `str::parse::<usize>` (64-bit). -/
def parseUsize (s : Str) : Option Nat := parseBoundedNat (2 ^ 64) s

/-- Model of `str::parse::<u8>`. -/
def parseU8 (s : Str) : Option Nat := parseBoundedNat 256 s

instance {ε α : Type} [DecidableEq ε] [DecidableEq α] : DecidableEq (Except ε α) := fun x y =>
  match x, y with
  | .ok a, .ok b =>
    if h : a = b then isTrue (by rw [h]) else isFalse (by intro hh; cases hh; exact h rfl)
  | .error a, .error b =>
    if h : a = b then isTrue (by rw [h]) else isFalse (by intro hh; cases hh; exact h rfl)
  | .ok _, .error _ => isFalse (by intro hh; cases hh)
  | .error _, .ok _ => isFalse (by intro hh; cases hh)

/-! ## Exact rationals without normalization

`ℚ`'s arithmetic normalizes through `Nat.gcd`, which the kernel cannot
unfold, so concrete runs of the parser could not be checked by `decide`.
`Q` is an unnormalized fraction with a positive denominator; `Q.toRat` maps
it to `ℚ` for the order-theoretic lemmas. -/

structure Q where
  num : ℤ
  den : ℕ
  pos : 0 < den
  deriving DecidableEq

namespace Q

def ofNat (n : ℕ) : Q := ⟨n, 1, Nat.one_pos⟩

def ofInt (n : ℤ) : Q := ⟨n, 1, Nat.one_pos⟩

def add (a b : Q) : Q :=
  ⟨a.num * b.den + b.num * a.den, a.den * b.den, Nat.mul_pos a.pos b.pos⟩

def sub (a b : Q) : Q :=
  ⟨a.num * b.den - b.num * a.den, a.den * b.den, Nat.mul_pos a.pos b.pos⟩

def mul (a b : Q) : Q := ⟨a.num * b.num, a.den * b.den, Nat.mul_pos a.pos b.pos⟩

def neg (a : Q) : Q := ⟨-a.num, a.den, a.pos⟩

def qabs (a : Q) : Q := ⟨|a.num|, a.den, a.pos⟩

/-- Division; a zero divisor (unreachable behind the call-site guards)
yields zero. -/
def div (a b : Q) : Q :=
  if h : 0 < b.num then ⟨a.num * b.den, a.den * b.num.toNat, Nat.mul_pos a.pos (by omega)⟩
  else if h' : b.num < 0 then
    ⟨-(a.num * b.den), a.den * (-b.num).toNat, Nat.mul_pos a.pos (by omega)⟩
  else ofNat 0

/-- Scale by a power of ten (for float-literal exponents). -/
def scale10 (a : Q) (e : ℤ) : Q :=
  if 0 ≤ e then ⟨a.num * 10 ^ e.toNat, a.den, a.pos⟩
  else ⟨a.num, a.den * 10 ^ (-e).toNat, Nat.mul_pos a.pos (by positivity)⟩

def blt (a b : Q) : Bool := decide (a.num * (b.den : ℤ) < b.num * (a.den : ℤ))

def ble (a b : Q) : Bool := decide (a.num * (b.den : ℤ) ≤ b.num * (a.den : ℤ))

/-- Value equality (the represented rationals are equal). -/
def beqv (a b : Q) : Bool := decide (a.num * (b.den : ℤ) = b.num * (a.den : ℤ))

def toRat (a : Q) : ℚ := a.num / a.den

theorem den_cast_pos (a : Q) : (0 : ℚ) < (a.den : ℚ) := by exact_mod_cast a.pos

theorem blt_iff (a b : Q) : blt a b = true ↔ a.toRat < b.toRat := by
  simp only [blt, decide_eq_true_eq, toRat]
  rw [div_lt_div_iff (den_cast_pos a) (den_cast_pos b)]
  exact_mod_cast Iff.rfl

theorem ble_iff (a b : Q) : ble a b = true ↔ a.toRat ≤ b.toRat := by
  simp only [ble, decide_eq_true_eq, toRat]
  rw [div_le_div_iff (den_cast_pos a) (den_cast_pos b)]
  exact_mod_cast Iff.rfl

theorem beqv_iff (a b : Q) : beqv a b = true ↔ a.toRat = b.toRat := by
  simp only [beqv, decide_eq_true_eq, toRat, div_eq_div_iff (den_cast_pos a).ne' (den_cast_pos b).ne']
  exact_mod_cast Iff.rfl

theorem toRat_ofNat (n : ℕ) : (ofNat n).toRat = n := by
  simp [ofNat, toRat]

theorem toRat_ofInt (n : ℤ) : (ofInt n).toRat = n := by
  simp [ofInt, toRat]

theorem toRat_sub (a b : Q) : (sub a b).toRat = a.toRat - b.toRat := by
  have ha := (den_cast_pos a).ne'
  have hb := (den_cast_pos b).ne'
  simp only [sub, toRat]
  push_cast
  field_simp
  ring

theorem toRat_mul (a b : Q) : (mul a b).toRat = a.toRat * b.toRat := by
  have ha := (den_cast_pos a).ne'
  have hb := (den_cast_pos b).ne'
  simp only [mul, toRat]
  push_cast
  field_simp

theorem toRat_neg (a : Q) : (neg a).toRat = -a.toRat := by
  simp [neg, toRat, neg_div]

theorem toRat_div (a b : Q) (hb : b.num ≠ 0) : (div a b).toRat = a.toRat / b.toRat := by
  have ha := (den_cast_pos a).ne'
  have hbd := (den_cast_pos b).ne'
  have hbq : (b.num : ℚ) ≠ 0 := Int.cast_ne_zero.mpr hb
  rcases lt_or_gt_of_ne hb with h | h
  · simp only [div, dif_neg (by omega : ¬ 0 < b.num), dif_pos h, toRat]
    have hnum : (((-b.num).toNat : ℕ) : ℚ) = -(b.num : ℚ) := by
      exact_mod_cast Int.toNat_of_nonneg (by omega : (0:ℤ) ≤ -b.num)
    push_cast [hnum]
    field_simp
  · simp only [div, dif_pos h, toRat]
    have hnum : (((b.num).toNat : ℕ) : ℚ) = (b.num : ℚ) := by
      exact_mod_cast Int.toNat_of_nonneg (by omega : (0:ℤ) ≤ b.num)
    push_cast [hnum]
    field_simp

end Q

/-! ## The float model -/

/-- Model of an IEEE floating point number (`f32`/`f64`): exact finite
rationals plus the infinities and NaN.  The sign of zero is not modelled. -/
inductive F
  | fin : Q → F
  | inf
  | ninf
  | nan
  deriving DecidableEq

namespace F

/-- Rust `f64::is_finite`. -/
def isFinite : F → Bool
  | fin _ => true
  | _ => false

/-- IEEE `<` (false whenever a NaN is involved). -/
def flt : F → F → Bool
  | fin a, fin b => Q.blt a b
  | fin _, inf => true
  | ninf, fin _ => true
  | ninf, inf => true
  | _, _ => false

/-- IEEE `<=` (false whenever a NaN is involved). -/
def fle : F → F → Bool
  | fin a, fin b => Q.ble a b
  | fin _, inf => true
  | ninf, fin _ => true
  | ninf, inf => true
  | inf, inf => true
  | ninf, ninf => true
  | _, _ => false

/-- IEEE `==` (a NaN is not equal to anything, including itself). -/
def feq : F → F → Bool
  | fin a, fin b => Q.beqv a b
  | inf, inf => true
  | ninf, ninf => true
  | _, _ => false

/-- IEEE negation. -/
def fneg : F → F
  | fin a => fin (Q.neg a)
  | inf => ninf
  | ninf => inf
  | nan => nan

/-- IEEE subtraction (exact on finite operands in this model). -/
def fsub : F → F → F
  | fin a, fin b => fin (Q.sub a b)
  | fin _, inf => ninf
  | fin _, ninf => inf
  | inf, fin _ => inf
  | inf, ninf => inf
  | inf, inf => nan
  | ninf, fin _ => ninf
  | ninf, inf => ninf
  | ninf, ninf => nan
  | nan, _ => nan
  | _, nan => nan

/-- IEEE multiplication (exact on finite operands in this model). -/
def fmul : F → F → F
  | fin a, fin b => fin (Q.mul a b)
  | fin a, inf => if Q.blt (Q.ofNat 0) a then inf else if Q.blt a (Q.ofNat 0) then ninf else nan
  | fin a, ninf => if Q.blt (Q.ofNat 0) a then ninf else if Q.blt a (Q.ofNat 0) then inf else nan
  | inf, fin b => if Q.blt (Q.ofNat 0) b then inf else if Q.blt b (Q.ofNat 0) then ninf else nan
  | ninf, fin b => if Q.blt (Q.ofNat 0) b then ninf else if Q.blt b (Q.ofNat 0) then inf else nan
  | inf, inf => inf
  | inf, ninf => ninf
  | ninf, inf => ninf
  | ninf, ninf => inf
  | nan, _ => nan
  | _, nan => nan

/-- IEEE division.  As the sign of zero is not modelled, a finite zero
divisor is treated as positive zero (every call site in the source guards
the divisor away from zero). -/
def fdiv : F → F → F
  | fin a, fin b =>
    if b.num = 0 then
      (if a.num = 0 then nan else if 0 < a.num then inf else ninf)
    else fin (Q.div a b)
  | fin _, inf => fin (Q.ofNat 0)
  | fin _, ninf => fin (Q.ofNat 0)
  | inf, fin b => if 0 ≤ b.num then inf else ninf
  | ninf, fin b => if 0 ≤ b.num then ninf else inf
  | inf, inf => nan
  | inf, ninf => nan
  | ninf, inf => nan
  | ninf, ninf => nan
  | nan, _ => nan
  | _, nan => nan

/-- IEEE absolute value. -/
def fabs : F → F
  | fin a => fin (Q.qabs a)
  | inf => inf
  | ninf => inf
  | nan => nan

/-- Rust `f64::max`: the greater operand, ignoring a NaN operand. -/
def fmax : F → F → F
  | nan, b => b
  | a, nan => a
  | inf, _ => inf
  | _, inf => inf
  | ninf, b => b
  | a, ninf => a
  | fin a, fin b => if Q.ble a b then fin b else fin a

/-- Rust `f64::min`: the smaller operand, ignoring a NaN operand. -/
def fmin : F → F → F
  | nan, b => b
  | a, nan => a
  | ninf, _ => ninf
  | _, ninf => ninf
  | inf, b => b
  | a, inf => a
  | fin a, fin b => if Q.ble a b then fin a else fin b

end F

/-! ## Float literal parsing -/

/-- The mantissa of a float literal: digits with at most one decimal point,
at least one digit overall (Rust accepts `1.` and `.5` but rejects `.`). -/
def parseMantissa (s : Str) : Option Q :=
  match splitOnChar '.' s with
  | [i] => (parseDigits i).map Q.ofNat
  | [i, f] =>
    match i, f with
    | [], [] => none
    | [], _ =>
      (parseDigits f).map (fun nf => ⟨nf, 10 ^ f.length, by positivity⟩)
    | _, [] => (parseDigits i).map Q.ofNat
    | _, _ =>
      match parseDigits i, parseDigits f with
      | some ni, some nf =>
        some (Q.add (Q.ofNat ni) ⟨nf, 10 ^ f.length, by positivity⟩)
      | _, _ => none
  | _ => none

/-- The signed exponent part of a float literal. -/
def parseExponent (s : Str) : Option ℤ :=
  match s with
  | '+' :: rest => (parseDigits rest).map (fun n => (n : ℤ))
  | '-' :: rest => (parseDigits rest).map (fun n => -(n : ℤ))
  | _ => (parseDigits s).map (fun n => (n : ℤ))

/-- The unsigned body of a float literal: special values, or a mantissa with
an optional exponent. -/
def parseFloatBody (s : Str) : Option F :=
  let lower := s.map Char.toLower
  if lower = "inf".toList ∨ lower = "infinity".toList then some F.inf
  else if lower = "nan".toList then some F.nan
  else
    match splitOnChar 'e' lower with
    | [m] => (parseMantissa m).map F.fin
    | [m, e] =>
      match parseMantissa m, parseExponent e with
      | some q, some ex => some (F.fin (Q.scale10 q ex))
      | _, _ => none
    | _ => none

/-- Model of `str::parse::<f64>` / `str::parse::<f32>` (see the module
comment for the divergences: exact rationals, no overflow-to-infinity). -/
def parseF (s : Str) : Option F :=
  match s with
  | '+' :: rest => parseFloatBody rest
  | '-' :: rest => (parseFloatBody rest).map F.fneg
  | _ => parseFloatBody s

example : parseF "1000".toList = some (F.fin (Q.ofNat 1000)) := by decide
example : parseF "123.5".toList = some (F.fin ⟨1235, 10, by norm_num⟩) := by decide
example : parseF "inf".toList = some F.inf := by decide
example : parseF "-Inf".toList = some F.ninf := by decide
example : parseF "NaN".toList = some F.nan := by decide
example : parseF "1e3".toList = some (F.fin ⟨1000, 1, Nat.one_pos⟩) := by decide
example : parseF "".toList = none := by decide
example : parseF ".".toList = none := by decide
example : parseF "-.5".toList = some (F.fin ⟨-5, 10, by norm_num⟩) := by decide

/-! ## Data model (`GameMode`, hit objects, control points, `Beatmap`)

`Pos2` (`pos2.rs`), the timing/difficulty points (`control_point.rs`) and
the error enum (`error.rs`) are declared in repository files that are not
included under `src/`; their shapes are reconstructed from their uses in
`mod.rs`/`hitobject.rs` and from the spec's data-model section
(componentwise `Pos2` arithmetic, points carrying a time plus one payload
field and ordered by time, one error variant per failure named in the
spec's error taxonomy). -/

/-- The mode of a beatmap (`GameMode` in `mod.rs`). -/
inductive GameMode
  | STD
  | TKO
  | CTB
  | MNA
  deriving DecidableEq

/-- A 2D position of `f32` coordinates (`pos2.rs`, reconstructed: only its
componentwise subtraction and derived `PartialEq` are used by the parser). -/
structure Pos2 where
  x : F
  y : F
  deriving DecidableEq

/-- Componentwise subtraction (`Pos2 - Pos2`). -/
def Pos2.psub (a b : Pos2) : Pos2 := ⟨F.fsub a.x b.x, F.fsub a.y b.y⟩

/-- Derived `PartialEq` on `Pos2`: IEEE equality on both coordinates. -/
def Pos2.peq (a b : Pos2) : Bool := F.feq a.x b.x && F.feq a.y b.y

/-- The type of curve of a slider (`PathType` in `mod.rs`). -/
inductive PathType
  | Catmull
  | Bezier
  | Linear
  | PerfectCurve
  deriving DecidableEq

/-- `PathType::from_str`: unrecognized codes decode to Catmull. -/
def PathType.fromStr (s : Str) : PathType :=
  if s = "L".toList then .Linear
  else if s = "B".toList then .Bezier
  else if s = "P".toList then .PerfectCurve
  else .Catmull

/-- Control point for slider curve calculation (`PathControlPoint`). -/
structure PathControlPoint where
  pos : Pos2
  kind : Option PathType
  deriving DecidableEq

/-- `PathControlPoint::default()`: origin, no type tag. -/
def PathControlPoint.default : PathControlPoint :=
  ⟨⟨F.fin (Q.ofNat 0), F.fin (Q.ofNat 0)⟩, none⟩

/-- `PathControlPoint::from(Pos2)`. -/
def PathControlPoint.fromPos (p : Pos2) : PathControlPoint := ⟨p, none⟩

/-- Further data related to specific object types (`HitObjectKind`,
`hitobject.rs`, with the `sliders` feature enabled). -/
inductive HitObjectKind
  | Circle
  | Slider (pixel_len : F) (repeats : Nat) (control_points : List PathControlPoint)
  | Spinner (end_time : F)
  | Hold (end_time : F)
  deriving DecidableEq

/-- An intermediate hitobject created through parsing (`HitObject`). -/
structure HitObject where
  pos : Pos2
  start_time : F
  kind : HitObjectKind
  sound : Nat
  deriving DecidableEq

/-- A timing point: time and beat length (`control_point.rs`,
reconstructed; ordered by time per the spec). -/
structure TimingPoint where
  time : F
  beat_len : F
  deriving DecidableEq

/-- A difficulty point: time and speed multiplier (`control_point.rs`,
reconstructed; ordered by time per the spec). -/
structure DifficultyPoint where
  time : F
  speed_multiplier : F
  deriving DecidableEq

/-- The parse error enum (`error.rs`, reconstructed from its uses and the
spec's error taxonomy).  `indexOutOfBounds` models a Rust panic from
out-of-bounds vector indexing, and `fuelExhausted` is the artificial result
of the fuel-based model of the top-level section loop (never reached with
the fuel `parse` supplies). -/
inductive ParseError
  | IncorrectFileHeader
  | BadLine
  | MissingField (name : String)
  | InvalidInteger
  | InvalidFloat
  | InvalidDecimalNumber
  | InvalidMode
  | TooManyRepeats
  | InvalidCurvePoints
  | UnknownHitObjectKind
  | indexOutOfBounds
  | fuelExhausted
  deriving DecidableEq

/-- `FloatExt::validate`: a parsed `f64` must be finite. -/
def validateF (f : F) : Except ParseError F :=
  if f.isFinite then .ok f else .error .InvalidDecimalNumber

/-- The main beatmap struct (`Beatmap`, with the `osu` and `sliders`
features enabled). -/
structure Beatmap where
  mode : GameMode
  version : Nat
  n_circles : Nat
  n_sliders : Nat
  n_spinners : Nat
  ar : F
  od : F
  cs : F
  hp : F
  slider_mult : F
  tick_rate : F
  hit_objects : List HitObject
  timing_points : List TimingPoint
  difficulty_points : List DifficultyPoint
  stack_leniency : F
  deriving DecidableEq

/-- `Beatmap::default()`: zero/empty everything, Standard mode. -/
def Beatmap.default : Beatmap where
  mode := .STD
  version := 0
  n_circles := 0
  n_sliders := 0
  n_spinners := 0
  ar := F.fin (Q.ofNat 0)
  od := F.fin (Q.ofNat 0)
  cs := F.fin (Q.ofNat 0)
  hp := F.fin (Q.ofNat 0)
  slider_mult := F.fin (Q.ofNat 0)
  tick_rate := F.fin (Q.ofNat 0)
  hit_objects := []
  timing_points := []
  difficulty_points := []
  stack_leniency := F.fin (Q.ofNat 0)

/-- The section state (`Section` in `mod.rs`). -/
inductive Section
  | NoSection
  | General
  | Difficulty
  | TimingPoints
  | HitObjects
  deriving DecidableEq

/-- `Section::from_str`: unrecognized names map to `None`. -/
def Section.fromStr (s : Str) : Section :=
  if s = "General".toList then .General
  else if s = "Difficulty".toList then .Difficulty
  else if s = "TimingPoints".toList then .TimingPoints
  else if s = "HitObjects".toList then .HitObjects
  else .NoSection

/-! ## Line handling -/

/-- `skip_line`: empty, comment, or space/underscore-led lines are skipped. -/
def skip_line (line : Str) : Bool :=
  line.isEmpty || "//".toList.isPrefixOf line ||
    (match line with
     | ' ' :: _ => true
     | '_' :: _ => true
     | _ => false)

/-- The `line_prepare!` macro: trim the end, skip skippable lines, strip an
inline `//` comment.  `none` means the line is skipped (`continue`). -/
def prepLine (raw : Str) : Option Str :=
  let line := trimEnd raw
  if skip_line line then none
  else
    match findSubstrIdx "//".toList line with
    | some idx => some (line.take idx)
    | none => some line

/-- The section-header test `line.starts_with('[') && line.ends_with(']')`. -/
def isBracketLine (line : Str) : Bool :=
  (match line with
   | '[' :: _ => true
   | _ => false) &&
  (match line.getLast? with
   | some ']' => true
   | _ => false)

/-- The header's name: `&line[1..line.len() - 1]`. -/
def bracketContent (line : Str) : Str := (line.drop 1).dropLast

/-- `split_colon`: key before the first colon, trimmed value between the
first and second colons (`split(':')` twice). -/
def split_colon (line : Str) : Option (Str × Str) :=
  match splitOnChar ':' line with
  | k :: v :: _ => some (k, trimBoth v)
  | _ => none

example : prepLine "  x".toList = none := by decide
example : prepLine "a,b //c".toList = some "a,b ".toList := by decide
example : split_colon "Mode: 3:x".toList = some ("Mode".toList, "3".toList) := by decide
example : isBracketLine "[General]".toList = true := by decide
example : bracketContent "[General]".toList = "General".toList := by decide

/-! ## The sort model

`sort_unstable` (`mod.rs` line 44) and the stable `sort_by` used for mania
both sort ascending w.r.t. the comparator
`p1.partial_cmp(p2).unwrap_or(Ordering::Equal)`.  They are modelled by one
insertion sort over the Boolean relation `le a b := cmp(a,b) ≠ Greater`:
the development relies only on the output being a permutation of the input
that is sorted w.r.t. the comparator, which holds for both Rust sorts. -/

def orderedInsertBy (le : α → α → Bool) (a : α) : List α → List α
  | [] => [a]
  | b :: l => if le a b then a :: b :: l else b :: orderedInsertBy le a l

def insertionSortBy (le : α → α → Bool) : List α → List α
  | [] => []
  | a :: l => orderedInsertBy le a (insertionSortBy le l)

/-- `partial_cmp(..).unwrap_or(Equal) != Greater` for `HitObject`
(`PartialOrd for HitObject` compares the start times, `hitobject.rs`). -/
def hitObjectLe (a b : HitObject) : Bool := !(F.flt b.start_time a.start_time)

/-- The comparator for `TimingPoint` (by time; `control_point.rs`,
reconstructed — the spec orders timing points by time). -/
def timingPointLe (a b : TimingPoint) : Bool := !(F.flt b.time a.time)

/-- The comparator for `DifficultyPoint` (by time; `control_point.rs`,
reconstructed — the spec orders difficulty points by time). -/
def difficultyPointLe (a b : DifficultyPoint) : Bool := !(F.flt b.time a.time)

/-- Modelled from the spec: `legacy_sort` (`sort.rs`, not included under
`src/`) is the mania-only second pass that "reorders same-time objects to
match the original game's column-assignment order" — a permutation of
equal-time runs.  No claim depends on which permutation it applies, so it
is modelled as the identity permutation. -/
def legacy_sort (objects : List HitObject) : List HitObject := objects

theorem length_orderedInsertBy (le : α → α → Bool) (a : α) (l : List α) :
    (orderedInsertBy le a l).length = l.length + 1 := by
  induction l with
  | nil => rfl
  | cons b l ih =>
    simp only [orderedInsertBy]
    split <;> simp [ih]

theorem length_insertionSortBy (le : α → α → Bool) (l : List α) :
    (insertionSortBy le l).length = l.length := by
  induction l with
  | nil => rfl
  | cons a l ih => simp [insertionSortBy, length_orderedInsertBy, ih]

theorem mem_orderedInsertBy (le : α → α → Bool) (a x : α) (l : List α) :
    x ∈ orderedInsertBy le a l ↔ x = a ∨ x ∈ l := by
  induction l with
  | nil => simp [orderedInsertBy]
  | cons b l ih =>
    simp only [orderedInsertBy]
    split
    · simp [List.mem_cons]
    · simp only [List.mem_cons, ih]
      tauto

theorem mem_insertionSortBy (le : α → α → Bool) (x : α) (l : List α) :
    x ∈ insertionSortBy le l ↔ x ∈ l := by
  induction l with
  | nil => simp [insertionSortBy]
  | cons a l ih => simp [insertionSortBy, mem_orderedInsertBy, ih]

theorem pairwise_orderedInsertBy (le : α → α → Bool) (P : α → Prop)
    (trans : ∀ x y z, P x → P y → P z → le x y = true → le y z = true → le x z = true)
    (total : ∀ x y, P x → P y → le x y = true ∨ le y x = true)
    (a : α) (l : List α) (hPa : P a) (hPl : ∀ x ∈ l, P x)
    (hl : l.Pairwise (fun x y => le x y = true)) :
    (orderedInsertBy le a l).Pairwise (fun x y => le x y = true) := by
  induction l with
  | nil => simp [orderedInsertBy]
  | cons b l ih =>
    rw [List.pairwise_cons] at hl
    simp only [orderedInsertBy]
    split
    · rename_i hab
      refine List.pairwise_cons.mpr ⟨?_, List.pairwise_cons.mpr ⟨hl.1, hl.2⟩⟩
      intro x hx
      rcases List.mem_cons.mp hx with rfl | hx
      · exact hab
      · exact trans a b x hPa (hPl b (by simp)) (hPl x (by simp [hx])) hab (hl.1 x hx)
    · rename_i hab
      have hba : le b a = true := by
        rcases total a b hPa (hPl b (by simp)) with h | h
        · exact absurd h hab
        · exact h
      refine List.pairwise_cons.mpr ⟨?_, ih (fun x hx => hPl x (by simp [hx])) hl.2⟩
      intro x hx
      rw [mem_orderedInsertBy] at hx
      rcases hx with rfl | hx
      · exact hba
      · exact hl.1 x hx

theorem pairwise_insertionSortBy (le : α → α → Bool) (P : α → Prop)
    (trans : ∀ x y z, P x → P y → P z → le x y = true → le y z = true → le x z = true)
    (total : ∀ x y, P x → P y → le x y = true ∨ le y x = true)
    (l : List α) (hPl : ∀ x ∈ l, P x) :
    (insertionSortBy le l).Pairwise (fun x y => le x y = true) := by
  induction l with
  | nil => simp [insertionSortBy]
  | cons a l ih =>
    exact pairwise_orderedInsertBy le P trans total a _ (hPl a (by simp))
      (fun x hx => hPl x (by simp [(mem_insertionSortBy le x l).mp hx]))
      (ih (fun x hx => hPl x (by simp [hx])))

/-! ## Slider path reconstruction (`osu_fruits` module of `mod.rs`) -/

/-- `MAX_COORDINATE_VALUE`. -/
def MAX_COORDINATE_VALUE : F := F.fin (Q.ofNat 131072)

/-- `read_point`: an `x:y` token, offset by the object's position. -/
def read_point (value : Str) (start_pos : Pos2) : Except ParseError PathControlPoint :=
  match splitOnChar ':' value with
  | x :: y :: _ =>
    match parseF x, parseF y with
    | some a, some b => .ok (PathControlPoint.fromPos (Pos2.psub ⟨a, b⟩ start_pos))
    | _, _ => .error .InvalidCurvePoints
  | _ => .error .InvalidCurvePoints

/-- `f32::EPSILON` = 2⁻²³. -/
def f32Epsilon : Q := ⟨1, 8388608, by norm_num⟩

/-- `is_linear`: the cross product of the two edge vectors is within
`f32::EPSILON` of zero. -/
def is_linear (p0 p1 p2 : Pos2) : Bool :=
  F.fle
    (F.fabs (F.fsub (F.fmul (F.fsub p1.x p0.x) (F.fsub p2.y p0.y))
                    (F.fmul (F.fsub p1.y p0.y) (F.fsub p2.x p0.x))))
    (F.fin f32Epsilon)

/-- The PerfectCurve edge-case of `convert_points` (`mod.rs` lines 907-917):
exactly three assembled vertices that are collinear demote to Linear, any
other vertex count demotes to Bezier. -/
def perfectCurveAdjust (k : PathType) (vertices : List PathControlPoint) : PathType :=
  if k = .PerfectCurve then
    match vertices with
    | [a, b, c] => if is_linear a.pos b.pos c.pos then .Linear else .PerfectCurve
    | _ => .Bezier
  else k

/-- The point-parsing `for` loop of `convert_points`. -/
def readPointsList (offset : Pos2) : List Str → Except ParseError (List PathControlPoint)
  | [] => .ok []
  | p :: rest =>
    match read_point p offset with
    | .error e => .error e
    | .ok v =>
      match readPointsList offset rest with
      | .error e => .error e
      | .ok vs => .ok (v :: vs)

/-- The vertex-assembly phase of `convert_points`: one default vertex when
`first`, then the parsed points (`points` minus its leading type token),
then the borrowed `end_point` if present. -/
def buildVertices (rest : List Str) (endPoint : Option Str) (first : Bool) (offset : Pos2) :
    Except ParseError (List PathControlPoint) :=
  match readPointsList offset rest with
  | .error e => .error e
  | .ok parsed =>
    match endPoint with
    | none => .ok ((if first then [PathControlPoint.default] else []) ++ parsed)
    | some ep =>
      match read_point ep offset with
      | .error e => .error e
      | .ok v => .ok ((if first then [PathControlPoint.default] else []) ++ parsed ++ [v])

/-- The implicit-segment `while` loop of `convert_points`.  One recursive
call is one `end_idx += 1; test` cycle; the fuel (`verts.length`, always
sufficient) only justifies termination.  Returns the final
`(vertices, start_idx, end_idx, curve_points)`. -/
def segLoop (pathKind : PathType) (eplen : Nat) :
    Nat → List PathControlPoint → Nat → Nat → List PathControlPoint →
    List PathControlPoint × Nat × Nat × List PathControlPoint
  | 0, verts, startIdx, endIdx, acc => (verts, startIdx, endIdx, acc)
  | fuel + 1, verts, startIdx, endIdx, acc =>
    let e := endIdx + 1
    if e < verts.length - eplen then
      if !(Pos2.peq (verts.getD e PathControlPoint.default).pos
            (verts.getD (e - 1) PathControlPoint.default).pos) then
        segLoop pathKind eplen fuel verts startIdx e acc
      else if e = verts.length - eplen - 1 then
        segLoop pathKind eplen fuel verts startIdx e acc
      else
        let verts' := verts.set (e - 1)
          { (verts.getD (e - 1) PathControlPoint.default) with kind := some pathKind }
        let acc' := acc ++ listSlice verts' startIdx e
        segLoop pathKind eplen fuel verts' (e + 1) e acc'
    else (verts, startIdx, e, acc)

/-- `convert_points`: one curve segment's raw tokens into control points,
appended onto `curvePoints`. -/
def convert_points (points : List Str) (endPoint : Option Str) (first : Bool) (offset : Pos2)
    (curvePoints : List PathControlPoint) : Except ParseError (List PathControlPoint) :=
  match points with
  | [] => .error .indexOutOfBounds
  | p0 :: rest =>
    let pathKind0 := PathType.fromStr p0
    match buildVertices rest endPoint first offset with
    | .error e => .error e
    | .ok vertices =>
      let pathKind := perfectCurveAdjust pathKind0 vertices
      match vertices with
      | [] => .error .indexOutOfBounds
      | v0 :: vs =>
        let verts := { v0 with kind := some pathKind } :: vs
        let eplen := if endPoint.isSome then 1 else 0
        match segLoop pathKind eplen verts.length verts 0 0 curvePoints with
        | (verts1, startIdx, endIdx, acc) =>
          .ok (if startIdx < endIdx then acc ++ listSlice verts1 startIdx endIdx else acc)

/-- The outer slider segmentation loop of `parse_hitobjects_body` over
`point_split` (a new segment starts at each token of length ≤ 1).  One
recursive call is one `end_idx += 1; test` cycle; the fuel
(`ps.length`, always sufficient) only justifies termination. -/
def sliderPointsLoop (ps : List Str) (pos : Pos2) :
    Nat → Nat → Nat → Bool → List PathControlPoint →
    Except ParseError (Nat × Nat × Bool × List PathControlPoint)
  | 0, startIdx, endIdx, first, acc => .ok (startIdx, endIdx, first, acc)
  | fuel + 1, startIdx, endIdx, first, acc =>
    let e := endIdx + 1
    match ps.get? e with
    | none => .ok (startIdx, e, first, acc)
    | some tok =>
      if tok.length > 1 then sliderPointsLoop ps pos fuel startIdx e first acc
      else
        match convert_points (listSlice ps startIdx e) (ps.get? (e + 1)) first pos acc with
        | .error err => .error err
        | .ok acc' => sliderPointsLoop ps pos fuel e e false acc'

/-- The slider branch of `parse_hitobjects_body` (`mod.rs` lines 491-577):
everything after the sound field, i.e. the control-point token list, the
raw repeat count (rejected above 9000, then decremented saturatingly), the
segmentation loop, the empty-control-points fallback to a circle, and the
clamped pixel length. -/
def parseSlider (fields : List Str) (pos : Pos2) : Except ParseError HitObjectKind :=
  match fields with
  | [] => .error (.MissingField "control points")
  | ctrl :: fields1 =>
    match fields1 with
    | [] => .error (.MissingField "repeats")
    | repStr :: fields2 =>
      match parseUsize repStr with
      | none => .error .InvalidInteger
      | some n =>
        if n > 9000 then .error .TooManyRepeats
        else
          let repeats := n - 1
          let pointSplit := splitOnChar '|' ctrl
          match sliderPointsLoop pointSplit pos pointSplit.length 0 0 true [] with
          | .error e => .error e
          | .ok (startIdx, endIdx, first, acc) =>
            let res : Except ParseError (List PathControlPoint) :=
              if endIdx > startIdx then
                convert_points (listSlice pointSplit startIdx endIdx) none first pos acc
              else .ok acc
            match res with
            | .error e => .error e
            | .ok controlPoints =>
              if controlPoints.isEmpty then .ok .Circle
              else
                match fields2 with
                | [] => .error (.MissingField "pixel len")
                | pixelStr :: _ =>
                  match parseF pixelStr with
                  | none => .error .InvalidFloat
                  | some pl =>
                    .ok (.Slider (F.fmin (F.fmax pl (F.fin (Q.ofNat 0))) MAX_COORDINATE_VALUE)
                          repeats controlPoints)

example :
    parseSlider ["B|1:1|2:2".toList, "2".toList, "100".toList] ⟨F.fin (Q.ofNat 0), F.fin (Q.ofNat 0)⟩ =
      .ok (.Slider (F.fin (Q.ofNat 100)) 1
        [⟨⟨F.fin (Q.ofNat 0), F.fin (Q.ofNat 0)⟩, some .Bezier⟩,
         ⟨⟨F.fin ⟨1, 1, Nat.one_pos⟩, F.fin ⟨1, 1, Nat.one_pos⟩⟩, none⟩,
         ⟨⟨F.fin ⟨2, 1, Nat.one_pos⟩, F.fin ⟨2, 1, Nat.one_pos⟩⟩, none⟩]) := by decide

example :
    parseSlider ["B|1:1".toList, "9001".toList, "100".toList] ⟨F.fin (Q.ofNat 0), F.fin (Q.ofNat 0)⟩ =
      .error .TooManyRepeats := by decide

/-! ## The HitObjects section parser (`parse_hitobjects_body`) -/

/-- The type-bit flags of `Beatmap`. -/
def CIRCLE_FLAG : Nat := 1

def SLIDER_FLAG : Nat := 2

def SPINNER_FLAG : Nat := 8

def HOLD_FLAG : Nat := 128

/-- Which of the three object counters a parsed object increments
(hold notes count as sliders — `n_sliders += 1` in the hold branch). -/
inductive CountedAs
  | circle
  | slider
  | spinner
  deriving DecidableEq

/-- The hold branch of `parse_hitobjects_body` (`mod.rs` lines 594-602):
the end time starts at the start time and is raised (`f64::max`) to the
part of the next field before its first colon, when that field exists. -/
def parseHold (fields : List Str) (time : F) : Except ParseError HitObjectKind :=
  match fields with
  | [] => .ok (.Hold time)
  | next :: _ =>
    match splitOnChar ':' next with
    | tok :: _ =>
      match parseF tok with
      | some v => .ok (.Hold (F.fmax time v))
      | none => .error .InvalidFloat
    | [] => .error (.MissingField "hold endtime")

/-- The object classification of `parse_hitobjects_body` (lines 487-605):
the first matching type bit decides the variant, no matching bit is an
unknown-kind error. -/
def classifyHitObject (kindBits : Nat) (fields : List Str) (time : F) (pos : Pos2) :
    Except ParseError (HitObjectKind × CountedAs) :=
  if kindBits.land CIRCLE_FLAG > 0 then .ok (.Circle, .circle)
  else if kindBits.land SLIDER_FLAG > 0 then
    match parseSlider fields pos with
    | .error e => .error e
    | .ok k => .ok (k, .slider)
  else if kindBits.land SPINNER_FLAG > 0 then
    match fields with
    | [] => .error (.MissingField "spinner endtime")
    | f :: _ =>
      match parseF f with
      | some v => .ok (.Spinner v, .spinner)
      | none => .error .InvalidFloat
  else if kindBits.land HOLD_FLAG > 0 then
    match parseHold fields time with
    | .error e => .error e
    | .ok k => .ok (k, .slider)
  else .error .UnknownHitObjectKind

/-- One HitObjects line: positions, validated time, type bits, optional
sound (0 if the field is absent), then the type-specific fields. -/
def parseHitObjectLine (line : Str) : Except ParseError (HitObject × CountedAs) :=
  match splitOnChar ',' line with
  | [] => .error (.MissingField "x pos")
  | f0 :: rest0 =>
    match parseF f0 with
    | none => .error .InvalidFloat
    | some x =>
      match rest0 with
      | [] => .error (.MissingField "y pos")
      | f1 :: rest1 =>
        match parseF f1 with
        | none => .error .InvalidFloat
        | some y =>
          match rest1 with
          | [] => .error (.MissingField "hitobject time")
          | f2 :: rest2 =>
            match parseF (trimBoth f2) with
            | none => .error .InvalidFloat
            | some t =>
              match validateF t with
              | .error e => .error e
              | .ok time =>
                match rest2 with
                | [] => .error (.MissingField "hitobject kind")
                | f3 :: rest3 =>
                  match parseU8 f3 with
                  | none => .error .InvalidInteger
                  | some kindBits =>
                    let soundFields : Except ParseError (Nat × List Str) :=
                      match rest3 with
                      | [] => .ok (0, [])
                      | f4 :: rest4 =>
                        match parseU8 f4 with
                        | none => .error .InvalidInteger
                        | some s => .ok (s, rest4)
                    match soundFields with
                    | .error e => .error e
                    | .ok (sound, fields) =>
                      match classifyHitObject kindBits fields time ⟨x, y⟩ with
                      | .error e => .error e
                      | .ok (kind, counted) =>
                        .ok (⟨⟨x, y⟩, time, kind, sound⟩, counted)

/-- The line loop of `parse_hitobjects_body`, carrying the `unsorted` flag
and `prev_time`.  Returns the new section and remaining lines, or `none` at
end of stream. -/
def hitObjectsLoop : List Str → Beatmap → Bool → F →
    Except ParseError (Beatmap × Bool × Option (Section × List Str))
  | [], map, unsorted, _ => .ok (map, unsorted, none)
  | raw :: rest, map, unsorted, prevTime =>
    match prepLine raw with
    | none => hitObjectsLoop rest map unsorted prevTime
    | some line =>
      if isBracketLine line then
        .ok (map, unsorted, some (Section.fromStr (bracketContent line), rest))
      else
        match parseHitObjectLine line with
        | .error e => .error e
        | .ok (obj, counted) =>
          let unsorted' :=
            if !map.hit_objects.isEmpty && F.flt obj.start_time prevTime then true
            else unsorted
          let map' := { map with
            hit_objects := map.hit_objects ++ [obj]
            n_circles := map.n_circles + (if counted = .circle then 1 else 0)
            n_sliders := map.n_sliders + (if counted = .slider then 1 else 0)
            n_spinners := map.n_spinners + (if counted = .spinner then 1 else 0) }
          hitObjectsLoop rest map' unsorted' obj.start_time

/-- `parse_hitobjects_body`: the line loop, then the mode-dependent sort
policy (lines 618-630; note the documented hazard: the mode tested is the
one in effect when this section ends). -/
def parse_hitobjects (map : Beatmap) (lines : List Str) :
    Except ParseError (Beatmap × Option (Section × List Str)) :=
  match hitObjectsLoop lines map false (F.fin (Q.ofNat 0)) with
  | .error e => .error e
  | .ok (map1, unsorted, next) =>
    let map2 :=
      if map1.mode = .MNA then
        { map1 with hit_objects := legacy_sort (insertionSortBy hitObjectLe map1.hit_objects) }
      else if unsorted then
        { map1 with hit_objects := insertionSortBy hitObjectLe map1.hit_objects }
      else map1
    .ok (map2, next)

/-! ## The TimingPoints section parser (`parse_timingpoints_body`, full
`sliders`-feature variant) -/

/-- 0.1 (the lower speed-multiplier clamp). -/
def qTenth : Q := ⟨1, 10, by norm_num⟩

/-- 0.7 (the `StackLeniency` default). -/
def qSevenTenths : Q := ⟨7, 10, by norm_num⟩

/-- The local state of `parse_timingpoints_body`. -/
structure TPState where
  map : Beatmap
  unsortedTimings : Bool
  unsortedDifficulties : Bool
  prevDiff : F
  prevTime : F
  deriving DecidableEq

/-- One parsed TimingPoints record (`mod.rs` lines 365-386): a negative
beat length appends a `DifficultyPoint` with speed multiplier
`(-100.0 / beat_len).max(0.1).min(10.0)`, a non-negative one appends a
`TimingPoint`; each branch tracks its own out-of-order flag. -/
def timingPointStep (time beatLen : F) (st : TPState) : TPState :=
  if F.flt beatLen (F.fin (Q.ofNat 0)) then
    let point : DifficultyPoint :=
      ⟨time, F.fmin (F.fmax (F.fdiv (F.fin (Q.ofInt (-100))) beatLen) (F.fin qTenth))
              (F.fin (Q.ofNat 10))⟩
    let st1 := { st with
      map := { st.map with difficulty_points := st.map.difficulty_points ++ [point] } }
    if F.flt time st.prevDiff then { st1 with unsortedDifficulties := true }
    else { st1 with prevDiff := time }
  else
    let st1 := { st with
      map := { st.map with
        timing_points := st.map.timing_points ++ [(⟨time, beatLen⟩ : TimingPoint)] } }
    if F.flt time st.prevTime then { st1 with unsortedTimings := true }
    else { st1 with prevTime := time }

/-- The line loop of `parse_timingpoints_body`: validated time, beat length
(not validated), then `timingPointStep`. -/
def timingPointsLoop : List Str → TPState →
    Except ParseError (TPState × Option (Section × List Str))
  | [], st => .ok (st, none)
  | raw :: rest, st =>
    match prepLine raw with
    | none => timingPointsLoop rest st
    | some line =>
      if isBracketLine line then
        .ok (st, some (Section.fromStr (bracketContent line), rest))
      else
        match splitOnChar ',' line with
        | [] => .error (.MissingField "timing point time")
        | f0 :: rest0 =>
          match parseF (trimBoth f0) with
          | none => .error .InvalidFloat
          | some t0 =>
            match validateF t0 with
            | .error e => .error e
            | .ok time =>
              match rest0 with
              | [] => .error (.MissingField "beat len")
              | f1 :: _ =>
                match parseF (trimBoth f1) with
                | none => .error .InvalidFloat
                | some beatLen => timingPointsLoop rest (timingPointStep time beatLen st)

/-- `parse_timingpoints_body`: the line loop, then the lazy per-list sorts. -/
def parse_timingpoints (map : Beatmap) (lines : List Str) :
    Except ParseError (Beatmap × Option (Section × List Str)) :=
  match timingPointsLoop lines ⟨map, false, false, F.fin (Q.ofNat 0), F.fin (Q.ofNat 0)⟩ with
  | .error e => .error e
  | .ok (st, next) =>
    let m1 :=
      if st.unsortedTimings then
        { st.map with timing_points := insertionSortBy timingPointLe st.map.timing_points }
      else st.map
    let m2 :=
      if st.unsortedDifficulties then
        { m1 with difficulty_points := insertionSortBy difficultyPointLe m1.difficulty_points }
      else m1
    .ok (m2, next)

/-! ## The General and Difficulty section parsers -/

/-- The line loop of `parse_general_body`: `Mode` (0-3, else an
invalid-mode error) and `StackLeniency` (the `osu` feature is enabled). -/
def generalLoop : List Str → Option GameMode → Option F →
    Except ParseError (Option GameMode × Option F × Option (Section × List Str))
  | [], mode, sl => .ok (mode, sl, none)
  | raw :: rest, mode, sl =>
    match prepLine raw with
    | none => generalLoop rest mode sl
    | some line =>
      if isBracketLine line then
        .ok (mode, sl, some (Section.fromStr (bracketContent line), rest))
      else
        match split_colon line with
        | none => .error .BadLine
        | some (key, value) =>
          if key = "Mode".toList then
            if value = "0".toList then generalLoop rest (some .STD) sl
            else if value = "1".toList then generalLoop rest (some .TKO) sl
            else if value = "2".toList then generalLoop rest (some .CTB) sl
            else if value = "3".toList then generalLoop rest (some .MNA) sl
            else .error .InvalidMode
          else if key = "StackLeniency".toList then
            match parseF value with
            | none => .error .InvalidFloat
            | some f => generalLoop rest mode (some f)
          else generalLoop rest mode sl

/-- `parse_general_body`: the line loop, then the mode default (Standard)
and the stack-leniency default (0.7).  All four mode features are enabled,
so no `UnincludedMode` check applies. -/
def parse_general (map : Beatmap) (lines : List Str) :
    Except ParseError (Beatmap × Option (Section × List Str)) :=
  match generalLoop lines none none with
  | .error e => .error e
  | .ok (mode, sl, next) =>
    .ok ({ map with
            mode := mode.getD .STD
            stack_leniency := sl.getD (F.fin qSevenTenths) }, next)

/-- The line loop of `parse_difficulty_body`, collecting the six optional
difficulty fields `(ar, od, cs, hp, sv, tick_rate)`. -/
def difficultyLoop : List Str →
    Option F → Option F → Option F → Option F → Option F → Option F →
    Except ParseError ((Option F × Option F × Option F × Option F × Option F × Option F) ×
      Option (Section × List Str))
  | [], ar, od, cs, hp, sv, tick => .ok ((ar, od, cs, hp, sv, tick), none)
  | raw :: rest, ar, od, cs, hp, sv, tick =>
    match prepLine raw with
    | none => difficultyLoop rest ar od cs hp sv tick
    | some line =>
      if isBracketLine line then
        .ok ((ar, od, cs, hp, sv, tick), some (Section.fromStr (bracketContent line), rest))
      else
        match split_colon line with
        | none => .error .BadLine
        | some (key, value) =>
          if key = "ApproachRate".toList then
            match parseF value with
            | none => .error .InvalidFloat
            | some f => difficultyLoop rest (some f) od cs hp sv tick
          else if key = "OverallDifficulty".toList then
            match parseF value with
            | none => .error .InvalidFloat
            | some f => difficultyLoop rest ar (some f) cs hp sv tick
          else if key = "CircleSize".toList then
            match parseF value with
            | none => .error .InvalidFloat
            | some f => difficultyLoop rest ar od (some f) hp sv tick
          else if key = "HPDrainRate".toList then
            match parseF value with
            | none => .error .InvalidFloat
            | some f => difficultyLoop rest ar od cs (some f) sv tick
          else if key = "SliderTickRate".toList then
            match parseF value with
            | none => .error .InvalidFloat
            | some f => difficultyLoop rest ar od cs hp sv (some f)
          else if key = "SliderMultiplier".toList then
            match parseF value with
            | none => .error .InvalidFloat
            | some f => difficultyLoop rest ar od cs hp (some f) tick
          else difficultyLoop rest ar od cs hp sv tick

/-- `parse_difficulty_body`: the line loop, then the mandatory-field checks
(`od`, `cs`, `hp`, `sv`, `tick rate`) with `ar` defaulting to `od`. -/
def parse_difficulty (map : Beatmap) (lines : List Str) :
    Except ParseError (Beatmap × Option (Section × List Str)) :=
  match difficultyLoop lines none none none none none none with
  | .error e => .error e
  | .ok ((ar, od, cs, hp, sv, tick), next) =>
    match od with
    | none => .error (.MissingField "od")
    | some odv =>
      match cs with
      | none => .error (.MissingField "cs")
      | some csv =>
        match hp with
        | none => .error (.MissingField "hp")
        | some hpv =>
          match sv with
          | none => .error (.MissingField "sv")
          | some svv =>
            match tick with
            | none => .error (.MissingField "tick rate")
            | some tickv =>
              .ok ({ map with
                      od := odv
                      cs := csv
                      hp := hpv
                      ar := ar.getD odv
                      slider_mult := svv
                      tick_rate := tickv }, next)

/-! ## The top-level parse (`parse_body`) -/

/-- `OSU_FILE_HEADER`. -/
def OSU_FILE_HEADER : Str := "osu file format v".toList

/-- A line that is blank up to whitespace and byte-order marks (the
header-skipping test `buf.trim_matches(|c| c.is_whitespace() || c == '\u{feff}').is_empty()`). -/
def isBlankOrBom (l : Str) : Bool := l.all (fun c => c.isWhitespace || c = '﻿')

/-- The header-seeking loop of `parse_body`: the first line that is not
blank (up to whitespace/BOM), plus the remaining lines; at end of stream
the buffer is empty. -/
def firstMeaningful : List Str → Str × List Str
  | [] => ([], [])
  | l :: rest => if isBlankOrBom l then firstMeaningful rest else (l, rest)

/-- The section-dispatch loop of `parse_body`.  The fuel (`parse` passes
`lines.length + 1`, which always suffices because every non-final
iteration consumes at least one line) only justifies termination. -/
def sectionsLoop : Nat → Beatmap → Section → List Str → Except ParseError Beatmap
  | 0, _, _, _ => .error .fuelExhausted
  | fuel + 1, map, sec, lines =>
    match sec with
    | .NoSection =>
      match lines with
      | [] => .ok map
      | raw :: rest =>
        match prepLine raw with
        | none => sectionsLoop fuel map .NoSection rest
        | some line =>
          if isBracketLine line then
            sectionsLoop fuel map (Section.fromStr (bracketContent line)) rest
          else sectionsLoop fuel map .NoSection rest
    | .General =>
      match parse_general map lines with
      | .error e => .error e
      | .ok (map', none) => .ok map'
      | .ok (map', some (sec', rest)) => sectionsLoop fuel map' sec' rest
    | .Difficulty =>
      match parse_difficulty map lines with
      | .error e => .error e
      | .ok (map', none) => .ok map'
      | .ok (map', some (sec', rest)) => sectionsLoop fuel map' sec' rest
    | .TimingPoints =>
      match parse_timingpoints map lines with
      | .error e => .error e
      | .ok (map', none) => .ok map'
      | .ok (map', some (sec', rest)) => sectionsLoop fuel map' sec' rest
    | .HitObjects =>
      match parse_hitobjects map lines with
      | .error e => .error e
      | .ok (map', none) => .ok map'
      | .ok (map', some (sec', rest)) => sectionsLoop fuel map' sec' rest

/-- `Beatmap::parse` (`parse_body!`): find the header in the first
meaningful line (else the incorrect-file-header error), parse the `u8`
version after it, then run the section loop on the remaining lines. -/
def Beatmap.parse (lines : List Str) : Except ParseError Beatmap :=
  let fm := firstMeaningful lines
  match findSubstrIdx OSU_FILE_HEADER fm.1 with
  | none => .error .IncorrectFileHeader
  | some idx =>
    match parseU8 (trimEnd (fm.1.drop (idx + OSU_FILE_HEADER.length))) with
    | none => .error .InvalidInteger
    | some version =>
      sectionsLoop (fm.2.length + 1) { Beatmap.default with version := version } .NoSection fm.2

example : Beatmap.parse ["nonsense".toList] = .error .IncorrectFileHeader := by decide
example : Beatmap.parse ["osu file format vX".toList] = .error .InvalidInteger := by decide
example :
    Beatmap.parse ["osu file format v14".toList] =
      .ok { Beatmap.default with version := 14 } := by decide

/-! ## The attribute adjuster (`attributes.rs`)

`BeatmapAttributes::mods` works on `f64` values; it is modelled over exact
rationals (`ℚ` directly, since no kernel evaluation is needed here).  The
`Mods` trait lives outside the parse module; its implementor is modelled as
the record of the values the adjuster reads from it (`change_map`, `speed`,
`od_ar_hp_multiplier`, `hr`, `ez`). -/

/-- Summary struct for a beatmap's attributes. -/
structure BeatmapAttributes where
  ar : ℚ
  od : ℚ
  cs : ℚ
  hp : ℚ
  clock_rate : ℚ

/-- `BeatmapAttributes::new` (clock rate 1). -/
def BeatmapAttributes.new (ar od cs hp : ℚ) : BeatmapAttributes := ⟨ar, od, cs, hp, 1⟩

/-- The values an `impl Mods` supplies to the adjuster. -/
structure ModsData where
  change_map : Bool
  speed : ℚ
  od_ar_hp_multiplier : ℚ
  hr : Bool
  ez : Bool

/-- `AR0_MS`. -/
def AR0_MS : ℚ := 1800

/-- `AR5_MS`. -/
def AR5_MS : ℚ := 1200

/-- `AR10_MS`. -/
def AR10_MS : ℚ := 450

/-- `AR_MS_STEP_1 = (AR0_MS - AR5_MS) / 5`. -/
def AR_MS_STEP_1 : ℚ := (AR0_MS - AR5_MS) / 5

/-- `AR_MS_STEP_2 = (AR5_MS - AR10_MS) / 5`. -/
def AR_MS_STEP_2 : ℚ := (AR5_MS - AR10_MS) / 5

/-- `BeatmapAttributes::mods`: adjusts attributes w.r.t. mods.  AR is
adjusted through its hit window (divided by the clock rate); OD is not. -/
def BeatmapAttributes.mods (self : BeatmapAttributes) (m : ModsData) : BeatmapAttributes :=
  if !m.change_map then self
  else
    let clock_rate := m.speed
    let multiplier := m.od_ar_hp_multiplier
    let ar0 := self.ar * multiplier
    let ar_ms0 :=
      if ar0 ≤ 5 then AR0_MS - AR_MS_STEP_1 * ar0
      else AR5_MS - AR_MS_STEP_2 * (ar0 - 5)
    let ar_ms := min (max ar_ms0 AR10_MS) AR0_MS / clock_rate
    let ar :=
      if ar_ms > AR5_MS then (AR0_MS - ar_ms) / AR_MS_STEP_1
      else 5 + (AR5_MS - ar_ms) / AR_MS_STEP_2
    let od := min (self.od * multiplier) 10
    let cs0 :=
      if m.hr then self.cs * (13 / 10)
      else if m.ez then self.cs * (1 / 2)
      else self.cs
    let cs := min cs0 10
    let hp := min (self.hp * multiplier) 10
    ⟨ar, od, cs, hp, clock_rate⟩

/-! ## Claim C1 -/

/-- C1, counterexample: for base AR=9, OD=8, CS=4, HP=5 and a map-changing
mod set with clock rate 3/2 and OD/AR/HP multiplier 1, the adjusted AR is
31/3 ≈ 10.33: it is NOT strictly less than 9 and NOT within [0, 10], so
the claim fails at this input.  (Speeding the clock up shortens the
approach window, which raises the effective AR.) -/
theorem c1_counterexample :
    ((BeatmapAttributes.new 9 8 4 5).mods ⟨true, 3/2, 1, false, false⟩).ar = 31 / 3 ∧
    ¬ ((BeatmapAttributes.new 9 8 4 5).mods ⟨true, 3/2, 1, false, false⟩).ar < 9 ∧
    ¬ ((BeatmapAttributes.new 9 8 4 5).mods ⟨true, 3/2, 1, false, false⟩).ar ≤ 10 := by
  norm_num [BeatmapAttributes.mods, BeatmapAttributes.new, AR0_MS, AR5_MS, AR10_MS,
    AR_MS_STEP_1, AR_MS_STEP_2]

/-- C1 (amended): for base attributes AR=9, OD=8, CS=4, HP=5 adjusted via
`BeatmapAttributes::mods` by any mod set that changes the map, has clock
rate 1.5 and OD/AR/HP multiplier 1.0, the returned AR is strictly GREATER
than 9 (time compression raises the effective AR) — specifically 31/3,
which exceeds 10 — the returned OD equals 8 (unaffected by the clock rate)
and lies within [0, 10], and the returned clock rate is 3/2. -/
theorem c1_attributes_amended (hr ez : Bool) :
    ((BeatmapAttributes.new 9 8 4 5).mods ⟨true, 3/2, 1, hr, ez⟩).ar = 31 / 3 ∧
    9 < ((BeatmapAttributes.new 9 8 4 5).mods ⟨true, 3/2, 1, hr, ez⟩).ar ∧
    10 < ((BeatmapAttributes.new 9 8 4 5).mods ⟨true, 3/2, 1, hr, ez⟩).ar ∧
    ((BeatmapAttributes.new 9 8 4 5).mods ⟨true, 3/2, 1, hr, ez⟩).od = 8 ∧
    0 ≤ ((BeatmapAttributes.new 9 8 4 5).mods ⟨true, 3/2, 1, hr, ez⟩).od ∧
    ((BeatmapAttributes.new 9 8 4 5).mods ⟨true, 3/2, 1, hr, ez⟩).od ≤ 10 ∧
    ((BeatmapAttributes.new 9 8 4 5).mods ⟨true, 3/2, 1, hr, ez⟩).clock_rate = 3 / 2 := by
  cases hr <;> cases ez <;>
    norm_num [BeatmapAttributes.mods, BeatmapAttributes.new, AR0_MS, AR5_MS, AR10_MS,
      AR_MS_STEP_1, AR_MS_STEP_2]

/-! ## Claim C7 -/

/-- The spec's `clamp(x, lo, hi)`. -/
def clampSpec (x lo hi : ℚ) : ℚ := max lo (min hi x)

theorem qTenth_toRat : qTenth.toRat = 1 / 10 := by norm_num [qTenth, Q.toRat]

theorem toRat_neg_num (b : Q) (hb : b.toRat < 0) : b.num < 0 := by
  by_contra h
  have h0 : (0 : ℚ) ≤ (b.num : ℚ) := by exact_mod_cast not_lt.mp h
  exact absurd (div_nonneg h0 (Q.den_cast_pos b).le) (not_le.mpr hb)

/-- C7: a TimingPoints record with a negative parsed beat length appends a
`DifficultyPoint` with the record's time and speed multiplier
`clamp(-100/beat_len, 0.1, 10)` (leaving `timing_points` unchanged), and a
record with a non-negative beat length appends a `TimingPoint` with the
record's time and beat length (leaving `difficulty_points` unchanged). -/
theorem c7_timing_point_classification (t : F) (b : Q) (st : TPState) :
    (F.flt (F.fin b) (F.fin (Q.ofNat 0)) = true →
      ∃ s : Q,
        (timingPointStep t (F.fin b) st).map.difficulty_points =
          st.map.difficulty_points ++ [⟨t, F.fin s⟩] ∧
        s.toRat = clampSpec (-100 / b.toRat) (1 / 10) 10 ∧
        (timingPointStep t (F.fin b) st).map.timing_points = st.map.timing_points) ∧
    (F.fle (F.fin (Q.ofNat 0)) (F.fin b) = true →
      (timingPointStep t (F.fin b) st).map.timing_points =
        st.map.timing_points ++ [⟨t, F.fin b⟩] ∧
      (timingPointStep t (F.fin b) st).map.difficulty_points =
        st.map.difficulty_points) := by
  constructor
  · intro hneg
    have hbR : b.toRat < 0 := by
      have := (Q.blt_iff b (Q.ofNat 0)).mp (by simpa [F.flt] using hneg)
      simpa [Q.toRat_ofNat] using this
    have hbnum : b.num ≠ 0 := (toRat_neg_num b hbR).ne
    have hdiv : F.fdiv (F.fin (Q.ofInt (-100))) (F.fin b) = F.fin (Q.div (Q.ofInt (-100)) b) := by
      simp [F.fdiv, hbnum]
    have hv : (Q.div (Q.ofInt (-100)) b).toRat = -100 / b.toRat := by
      rw [Q.toRat_div _ _ hbnum, Q.toRat_ofInt]
      norm_num
    set d := Q.div (Q.ofInt (-100)) b with hd
    have hstep : timingPointStep t (F.fin b) st =
        (let point : DifficultyPoint :=
          ⟨t, F.fmin (F.fmax (F.fin d) (F.fin qTenth)) (F.fin (Q.ofNat 10))⟩
        let st1 := { st with
          map := { st.map with
            difficulty_points := st.map.difficulty_points ++ [point] } }
        if F.flt t st.prevDiff then { st1 with unsortedDifficulties := true }
        else { st1 with prevDiff := t }) := by
      rw [timingPointStep, if_pos hneg, hdiv]
    have hm : ∃ s : Q,
        F.fmin (F.fmax (F.fin d) (F.fin qTenth)) (F.fin (Q.ofNat 10)) = F.fin s ∧
        s.toRat = clampSpec (-100 / b.toRat) (1 / 10) 10 := by
      by_cases h1 : Q.ble d qTenth = true
      · have hv1 : d.toRat ≤ 1 / 10 := by
          have := (Q.ble_iff d qTenth).mp h1
          simpa [qTenth_toRat] using this
        refine ⟨qTenth, ?_, ?_⟩
        · simp only [F.fmax, F.fmin, h1, if_true,
            (by decide : Q.ble qTenth (Q.ofNat 10) = true)]
        · rw [qTenth_toRat, clampSpec, ← hv]
          rw [min_eq_right (by linarith), max_eq_left (by linarith)]
      · have h1f : Q.ble d qTenth = false := Bool.eq_false_iff.mpr h1
        have hv1 : ¬ d.toRat ≤ 1 / 10 := by
          rw [← qTenth_toRat]
          exact fun hc => h1 ((Q.ble_iff d qTenth).mpr hc)
        by_cases h2 : Q.ble d (Q.ofNat 10) = true
        · have hv2 : d.toRat ≤ 10 := by
            have := (Q.ble_iff d (Q.ofNat 10)).mp h2
            simpa [Q.toRat_ofNat] using this
          refine ⟨d, ?_, ?_⟩
          · simp only [F.fmax, F.fmin, h1f, if_false, Bool.false_eq_true, h2, if_true]
          · rw [← hv, clampSpec, min_eq_right hv2, max_eq_right (by linarith)]
        · have h2f : Q.ble d (Q.ofNat 10) = false := Bool.eq_false_iff.mpr h2
          have hv2 : ¬ d.toRat ≤ 10 := by
            rw [show (10:ℚ) = (Q.ofNat 10).toRat by simp [Q.toRat_ofNat]]
            exact fun hc => h2 ((Q.ble_iff d (Q.ofNat 10)).mpr hc)
          refine ⟨Q.ofNat 10, ?_, ?_⟩
          · simp only [F.fmax, F.fmin, h1f, if_false, Bool.false_eq_true, h2f]
          · rw [Q.toRat_ofNat, clampSpec, ← hv,
              min_eq_left (by push_neg at hv2; linarith), max_eq_right (by norm_num)]
            norm_num
    rcases hm with ⟨s, hs, hsR⟩
    refine ⟨s, ?_, by simpa using hsR, ?_⟩ <;> rw [hstep] <;> simp only [hs] <;>
      split <;> simp
  · intro hnonneg
    have hbR : 0 ≤ b.toRat := by
      have := (Q.ble_iff (Q.ofNat 0) b).mp (by simpa [F.fle] using hnonneg)
      simpa [Q.toRat_ofNat] using this
    have hflt : F.flt (F.fin b) (F.fin (Q.ofNat 0)) = false := by
      simp only [F.flt]
      rw [Bool.eq_false_iff]
      intro hc
      have := (Q.blt_iff b (Q.ofNat 0)).mp hc
      rw [Q.toRat_ofNat] at this
      exact absurd this (not_lt.mpr (by exact_mod_cast hbR))
    rw [timingPointStep, if_neg (by simp [hflt])]
    constructor <;> split <;> simp

/-- An initial timing-section state over the default beatmap (used by the
concrete instantiations below). -/
def tpState0 : TPState :=
  ⟨Beatmap.default, false, false, F.fin (Q.ofNat 0), F.fin (Q.ofNat 0)⟩

/-- C7, witness: a record with beat length −50 appends a difficulty point
with the clamped multiplier, a record with beat length 200 appends a
timing point. -/
theorem c7_witness :
    (∃ s : Q,
      (timingPointStep (F.fin (Q.ofNat 0)) (F.fin (Q.ofInt (-50))) tpState0).map.difficulty_points =
        tpState0.map.difficulty_points ++ [⟨F.fin (Q.ofNat 0), F.fin s⟩] ∧
      s.toRat = clampSpec (-100 / (Q.ofInt (-50)).toRat) (1 / 10) 10 ∧
      (timingPointStep (F.fin (Q.ofNat 0)) (F.fin (Q.ofInt (-50))) tpState0).map.timing_points =
        tpState0.map.timing_points) ∧
    ((timingPointStep (F.fin (Q.ofNat 0)) (F.fin (Q.ofNat 200)) tpState0).map.timing_points =
        tpState0.map.timing_points ++ [⟨F.fin (Q.ofNat 0), F.fin (Q.ofNat 200)⟩] ∧
      (timingPointStep (F.fin (Q.ofNat 0)) (F.fin (Q.ofNat 200)) tpState0).map.difficulty_points =
        tpState0.map.difficulty_points) :=
  ⟨(c7_timing_point_classification (F.fin (Q.ofNat 0)) (Q.ofInt (-50)) tpState0).1 (by decide),
   (c7_timing_point_classification (F.fin (Q.ofNat 0)) (Q.ofNat 200) tpState0).2 (by decide)⟩

/-! ## Claim C10 -/

theorem Q.blt_irrefl (a : Q) : Q.blt a a = false := by
  simp [Q.blt]

theorem Q.blt_of_ble (a b : Q) (h : Q.ble a b = true) : Q.blt b a = false := by
  rw [Bool.eq_false_iff]
  intro hc
  have h1 := (Q.ble_iff a b).mp h
  have h2 := (Q.blt_iff b a).mp hc
  linarith

/-- Rust's NaN-ignoring `max` never compares below its first operand. -/
theorem fmax_not_flt (a b : F) : F.flt (F.fmax a b) a = false := by
  cases a with
  | fin aq =>
    cases b with
    | fin bq =>
      by_cases h : Q.ble aq bq = true
      · simp [F.fmax, h, F.flt, Q.blt_of_ble aq bq h]
      · simp [F.fmax, Bool.eq_false_iff.mpr h, F.flt, Q.blt_irrefl]
    | inf => simp [F.fmax, F.flt]
    | ninf => simp [F.fmax, F.flt, Q.blt_irrefl]
    | nan => simp [F.fmax, F.flt, Q.blt_irrefl]
  | inf => cases b <;> simp [F.fmax, F.flt]
  | ninf => cases b <;> simp [F.fmax, F.flt, Q.blt_irrefl]
  | nan => cases b <;> simp [F.fmax, F.flt, Q.blt_irrefl]

theorem flt_self_false (a : F) : F.flt a a = false := by
  cases a <;> simp [F.flt, Q.blt_irrefl]

/-- C10: a Hold's stored end time is `max(start, parsed end token)`: with no
further field it equals the start time; with a further field whose part
before the first colon parses to `v` it equals `max(start, v)`; and in
every successfully parsed case the end time is never below the start
time. -/
theorem c10_hold_end_time :
    (∀ time : F, parseHold [] time = .ok (.Hold time)) ∧
    (∀ (f : Str) (rest : List Str) (tok : Str) (toks : List Str) (v : F) (time : F),
      splitOnChar ':' f = tok :: toks → parseF tok = some v →
      parseHold (f :: rest) time = .ok (.Hold (F.fmax time v))) ∧
    (∀ (fields : List Str) (time e : F),
      parseHold fields time = .ok (.Hold e) → F.flt e time = false) := by
  refine ⟨fun time => rfl, ?_, ?_⟩
  · intro f rest tok toks v time hsplit hparse
    simp [parseHold, hsplit, hparse]
  · intro fields time e hok
    match fields with
    | [] =>
      simp only [parseHold, Except.ok.injEq, HitObjectKind.Hold.injEq] at hok
      rw [← hok]
      exact flt_self_false time
    | f :: rest =>
      rcases hs : splitOnChar ':' f with _ | ⟨tok, toks⟩
      · simp [parseHold, hs] at hok
      · simp only [parseHold, hs] at hok
        rcases hp : parseF tok with _ | v
        · simp [hp] at hok
        · simp only [hp, Except.ok.injEq, HitObjectKind.Hold.injEq] at hok
          rw [← hok]
          exact fmax_not_flt time v

/-- C10, witness: a Hold field `5000:0:0:0:` with start time 1000 stores
end time `max(1000, 5000)`, no field stores the start time, and neither
end time is below its start time. -/
theorem c10_witness :
    parseHold [] (F.fin (Q.ofNat 1000)) = .ok (.Hold (F.fin (Q.ofNat 1000))) ∧
    parseHold ["5000:0:0:0:".toList] (F.fin (Q.ofNat 1000)) =
      .ok (.Hold (F.fmax (F.fin (Q.ofNat 1000)) (F.fin (Q.ofNat 5000)))) ∧
    F.flt (F.fmax (F.fin (Q.ofNat 1000)) (F.fin (Q.ofNat 5000))) (F.fin (Q.ofNat 1000)) = false :=
  ⟨c10_hold_end_time.1 (F.fin (Q.ofNat 1000)),
   c10_hold_end_time.2.1 "5000:0:0:0:".toList [] "5000".toList ["0".toList, "0".toList, "0".toList, [].map id]
     (F.fin (Q.ofNat 5000)) (F.fin (Q.ofNat 1000)) (by decide) (by decide),
   c10_hold_end_time.2.2 ["5000:0:0:0:".toList] (F.fin (Q.ofNat 1000))
     (F.fmax (F.fin (Q.ofNat 1000)) (F.fin (Q.ofNat 5000)))
     (c10_hold_end_time.2.1 "5000:0:0:0:".toList [] "5000".toList
       ["0".toList, "0".toList, "0".toList, [].map id]
       (F.fin (Q.ofNat 5000)) (F.fin (Q.ofNat 1000)) (by decide) (by decide))⟩

/-! ## Claims C5 and C6 -/

theorem read_point_ne_tmr (v : Str) (p : Pos2) :
    read_point v p ≠ .error .TooManyRepeats := by
  rw [read_point]
  rcases splitOnChar ':' v with _ | ⟨x, _ | ⟨y, _⟩⟩ <;> simp
  rcases parseF x with _ | a <;> rcases parseF y with _ | b <;> simp

theorem readPointsList_ne_tmr (offset : Pos2) (l : List Str) :
    readPointsList offset l ≠ .error .TooManyRepeats := by
  induction l with
  | nil => simp [readPointsList]
  | cons p rest ih =>
    rw [readPointsList]
    rcases hp : read_point p offset with e | v
    · have := read_point_ne_tmr p offset
      rw [hp] at this
      simp only []
      intro hc
      cases hc
      exact this rfl
    · rcases hr : readPointsList offset rest with e | vs
      · rw [hr] at ih
        simp only []
        intro hc
        cases hc
        exact ih rfl
      · simp


theorem buildVertices_ne_tmr (rest : List Str) (ep : Option Str) (first : Bool) (offset : Pos2) :
    buildVertices rest ep first offset ≠ .error .TooManyRepeats := by
  rw [buildVertices]
  rcases hr : readPointsList offset rest with e | parsed
  · intro hc
    simp only [hr] at hc
    cases hc
    exact readPointsList_ne_tmr offset rest hr
  · simp only [hr]
    rcases ep with _ | s
    · simp
    · rcases hp : read_point s offset with e | v
      · intro hc
        simp only [hp] at hc
        cases hc
        exact read_point_ne_tmr s offset hp
      · simp [hp]

theorem convert_points_ne_tmr (points : List Str) (ep : Option Str) (first : Bool)
    (offset : Pos2) (acc : List PathControlPoint) :
    convert_points points ep first offset acc ≠ .error .TooManyRepeats := by
  rw [convert_points.eq_def]
  rcases points with _ | ⟨p0, rest⟩
  · simp
  · simp only []
    rcases hb : buildVertices rest ep first offset with e | vertices
    · intro hc
      cases hc
      exact buildVertices_ne_tmr rest ep first offset hb
    · rcases vertices with _ | ⟨v0, vs⟩
      · simp
      · simp only []
        rcases segLoop _ _ _ _ 0 0 acc with ⟨v1, s1, e1, a1⟩
        simp

theorem sliderPointsLoop_ne_tmr (ps : List Str) (pos : Pos2) (fuel : Nat) :
    ∀ (s e : Nat) (first : Bool) (acc : List PathControlPoint),
    sliderPointsLoop ps pos fuel s e first acc ≠ .error .TooManyRepeats := by
  induction fuel with
  | zero => intro s e first acc; simp [sliderPointsLoop]
  | succ fuel ih =>
    intro s e first acc
    rw [sliderPointsLoop]
    rcases hg : ps.get? (e + 1) with _ | tok
    · simp [hg]
    · simp only [hg]
      by_cases ht : tok.length > 1
      · rw [if_pos ht]
        exact ih s (e + 1) first acc
      · rw [if_neg ht]
        rcases hc : convert_points (listSlice ps s (e + 1)) (ps.get? (e + 1 + 1)) first pos acc
          with er | acc'
        · intro h2
          simp only [hc] at h2
          cases h2
          exact convert_points_ne_tmr _ _ _ _ _ hc
        · simp only [hc]
          exact ih (e + 1) (e + 1) false acc'

/-- C5: a slider line whose raw repeat token parses to a count above 9000
fails with the too-many-repeats error — before any control point of the
slider is reconstructed, since the control-point token list `ctrl` is
arbitrary here (it may even be garbage) — while a count of at most 9000 is
never rejected with that error. -/
theorem c5_too_many_repeats (ctrl repStr : Str) (rest : List Str) (pos : Pos2) (n : Nat)
    (h : parseUsize repStr = some n) :
    (n > 9000 → parseSlider (ctrl :: repStr :: rest) pos = .error .TooManyRepeats) ∧
    (n ≤ 9000 → parseSlider (ctrl :: repStr :: rest) pos ≠ .error .TooManyRepeats) := by
  constructor
  · intro hn
    simp [parseSlider, h, hn]
  · intro hn
    rw [parseSlider]
    simp only [h]
    rw [if_neg (by omega)]
    rcases hl : sliderPointsLoop (splitOnChar '|' ctrl) pos (splitOnChar '|' ctrl).length 0 0
        true [] with er | ⟨startIdx, endIdx, first, acc⟩
    · intro h2
      simp only [hl] at h2
      cases h2
      exact sliderPointsLoop_ne_tmr _ _ _ _ _ _ _ hl
    · simp only [hl]
      by_cases hgt : endIdx > startIdx
      · rw [if_pos hgt]
        rcases hc : convert_points (listSlice (splitOnChar '|' ctrl) startIdx endIdx) none
            first pos acc with er | cps
        · intro h2
          simp only [hc] at h2
          cases h2
          exact convert_points_ne_tmr _ _ _ _ _ hc
        · simp only [hc]
          by_cases he : cps.isEmpty
          · simp [he]
          · simp only [Bool.not_eq_true] at he
            simp only [he]
            rcases rest with _ | ⟨pixelStr, rest2⟩
            · simp
            · rcases hp : parseF pixelStr with _ | pl <;> simp [hp]
      · rw [if_neg hgt]
        simp only []
        by_cases he : acc.isEmpty
        · simp [he]
        · simp only [Bool.not_eq_true] at he
          simp only [he]
          rcases rest with _ | ⟨pixelStr, rest2⟩
          · simp
          · rcases hp : parseF pixelStr with _ | pl <;> simp [hp]

/-- C5, witness: repeat token `9001` is rejected with the too-many-repeats
error even with a garbage control-point list, token `9000` is not. -/
theorem c5_witness :
    parseSlider ["garbage".toList, "9001".toList] ⟨F.fin (Q.ofNat 0), F.fin (Q.ofNat 0)⟩ =
      .error .TooManyRepeats ∧
    parseSlider ["B|1:1".toList, "9000".toList, "100".toList]
      ⟨F.fin (Q.ofNat 0), F.fin (Q.ofNat 0)⟩ ≠ .error .TooManyRepeats :=
  ⟨(c5_too_many_repeats "garbage".toList "9001".toList []
      ⟨F.fin (Q.ofNat 0), F.fin (Q.ofNat 0)⟩ 9001 (by decide)).1 (by decide),
   (c5_too_many_repeats "B|1:1".toList "9000".toList ["100".toList]
      ⟨F.fin (Q.ofNat 0), F.fin (Q.ofNat 0)⟩ 9000 (by decide)).2 (by decide)⟩

/-- C6: for every slider accepted by the parser (raw repeat count `n` at
most 9000) that produces a `Slider` kind, the stored repeat count is
`n - 1` in saturating (natural-number) subtraction — in particular a raw
count of 0 is stored as 0. -/
theorem c6_repeats_stored (ctrl repStr : Str) (rest : List Str) (pos : Pos2) (n : Nat)
    (h : parseUsize repStr = some n) (hn : n ≤ 9000)
    (pl : F) (r : Nat) (cps : List PathControlPoint)
    (hok : parseSlider (ctrl :: repStr :: rest) pos = .ok (.Slider pl r cps)) :
    r = n - 1 := by
  rw [parseSlider] at hok
  simp only [h] at hok
  rw [if_neg (by omega)] at hok
  rcases hl : sliderPointsLoop (splitOnChar '|' ctrl) pos (splitOnChar '|' ctrl).length 0 0
      true [] with er | ⟨startIdx, endIdx, first, acc⟩ <;> simp only [hl] at hok
  · cases hok
  · by_cases hgt : endIdx > startIdx
    · rw [if_pos hgt] at hok
      rcases hc : convert_points (listSlice (splitOnChar '|' ctrl) startIdx endIdx) none
          first pos acc with er | cps' <;> simp only [hc] at hok
      · cases hok
      · by_cases he : cps'.isEmpty
        · simp [he] at hok
        · simp only [Bool.not_eq_true] at he
          simp only [he] at hok
          rcases rest with _ | ⟨pixelStr, rest2⟩
          · simp at hok
          · rcases hp : parseF pixelStr with _ | pl' <;> simp only [hp] at hok
            · cases hok
            · cases hok
              rfl
    · rw [if_neg hgt] at hok
      by_cases he : acc.isEmpty
      · simp [he] at hok
      · simp only [Bool.not_eq_true] at he
        simp only [he] at hok
        rcases rest with _ | ⟨pixelStr, rest2⟩
        · simp at hok
        · rcases hp : parseF pixelStr with _ | pl' <;> simp only [hp] at hok
          · cases hok
          · cases hok
            rfl

/-- C6, witness: a raw repeat count of 3 is stored as 2, and a raw repeat
count of 0 is stored as 0 (= 0 − 1 saturatingly). -/
theorem c6_witness :
    parseSlider ["B".toList, "3".toList, "100".toList]
        ⟨F.fin (Q.ofNat 0), F.fin (Q.ofNat 0)⟩ =
      .ok (.Slider (F.fin (Q.ofNat 100)) 2
        [⟨⟨F.fin (Q.ofNat 0), F.fin (Q.ofNat 0)⟩, some .Bezier⟩]) ∧
    (2 : Nat) = 3 - 1 ∧
    parseSlider ["B".toList, "0".toList, "100".toList]
        ⟨F.fin (Q.ofNat 0), F.fin (Q.ofNat 0)⟩ =
      .ok (.Slider (F.fin (Q.ofNat 100)) 0
        [⟨⟨F.fin (Q.ofNat 0), F.fin (Q.ofNat 0)⟩, some .Bezier⟩]) ∧
    (0 : Nat) = 0 - 1 :=
  ⟨by decide,
   c6_repeats_stored "B".toList "3".toList ["100".toList]
     ⟨F.fin (Q.ofNat 0), F.fin (Q.ofNat 0)⟩ 3 (by decide) (by decide)
     (F.fin (Q.ofNat 100)) 2 [⟨⟨F.fin (Q.ofNat 0), F.fin (Q.ofNat 0)⟩, some .Bezier⟩]
     (by decide),
   by decide,
   c6_repeats_stored "B".toList "0".toList ["100".toList]
     ⟨F.fin (Q.ofNat 0), F.fin (Q.ofNat 0)⟩ 0 (by decide) (by decide)
     (F.fin (Q.ofNat 100)) 0 [⟨⟨F.fin (Q.ofNat 0), F.fin (Q.ofNat 0)⟩, some .Bezier⟩]
     (by decide)⟩

/-! ## Claim C4 -/

theorem get?_append_self (acc l : List α) : (acc ++ l).get? acc.length = l.get? 0 := by
  rw [List.get?_append_right (le_refl _)]
  simp

theorem get?_zero_append {w : α} (l l' : List α) (h : l.get? 0 = some w) :
    (l ++ l').get? 0 = some w := by
  rcases l with _ | ⟨a, t⟩
  · simp at h
  · simpa using h

/-- The implicit-segment loop preserves the head vertex and appends
segments whose first element is the head vertex (whose type tag is already
the forced `pathKind`, so the loop's in-place retagging never changes
it). -/
theorem segLoop_spec (pathKind : PathType) (eplen : Nat) (w : PathControlPoint)
    (acc0 : List PathControlPoint) (hwk : w.kind = some pathKind) :
    ∀ (fuel : Nat) (verts : List PathControlPoint) (startIdx endIdx : Nat)
      (acc : List PathControlPoint),
    1 ≤ fuel → verts.length - eplen - endIdx ≤ fuel →
    verts.get? 0 = some w →
    ((startIdx = 0 ∧ acc = acc0) ∨ (∃ l, acc = acc0 ++ l ∧ l.get? 0 = some w)) →
    ∃ verts1 s1 e1 acc1,
      segLoop pathKind eplen fuel verts startIdx endIdx acc = (verts1, s1, e1, acc1) ∧
      verts1.get? 0 = some w ∧
      ((s1 = 0 ∧ acc1 = acc0 ∧ s1 < e1) ∨ (∃ l, acc1 = acc0 ++ l ∧ l.get? 0 = some w)) := by
  intro fuel
  induction fuel with
  | zero => intro _ _ _ _ h1 _ _ _; omega
  | succ fuel ih =>
    intro verts startIdx endIdx acc _ hfuel hw hinv
    rw [segLoop]
    by_cases hlt : endIdx + 1 < verts.length - eplen
    · rw [if_pos hlt]
      by_cases hpeq : Pos2.peq (verts.getD (endIdx + 1) PathControlPoint.default).pos
          (verts.getD (endIdx + 1 - 1) PathControlPoint.default).pos = true
      · rw [hpeq]
        by_cases hlast : endIdx + 1 = verts.length - eplen - 1
        · simp only [Bool.not_true, if_false, if_pos hlast, Bool.false_eq_true]
          exact ih verts startIdx (endIdx + 1) acc (by omega) (by omega) hw hinv
        · simp only [Bool.not_true, Bool.false_eq_true, if_false, if_neg hlast]
          set a := { verts.getD (endIdx + 1 - 1) PathControlPoint.default with
            kind := some pathKind } with ha
          have hw' : (verts.set (endIdx + 1 - 1) a).get? 0 = some w := by
            rcases Nat.eq_zero_or_pos endIdx with h0 | hpos
            · subst h0
              rw [show (0 + 1 - 1 : Nat) = 0 by rfl]
              rw [List.get?_set_eq]
              have hgd : verts.getD 0 PathControlPoint.default = w := by
                unfold List.getD
                rw [hw]
                rfl
              rw [hw]
              simp only [Option.map_eq_map, Option.map_some', ha, hgd]
              have : ({ w with kind := some pathKind } : PathControlPoint) = w := by
                rcases w with ⟨wpos, wkind⟩
                simp only at hwk
                rw [hwk]
              rw [this]
            · rw [List.get?_set_ne _ _ (by omega)]
              exact hw
          have hinv' : ((endIdx + 1 + 1 = 0 ∧
              acc ++ listSlice (verts.set (endIdx + 1 - 1) a) startIdx (endIdx + 1) = acc0) ∨
              (∃ l, acc ++ listSlice (verts.set (endIdx + 1 - 1) a) startIdx (endIdx + 1) =
                acc0 ++ l ∧ l.get? 0 = some w)) := by
            right
            rcases hinv with ⟨hs0, hacc⟩ | ⟨l, hacc, hl⟩
            · subst hs0
              refine ⟨listSlice (verts.set (endIdx + 1 - 1) a) 0 (endIdx + 1), by rw [hacc], ?_⟩
              rw [listSlice]
              simp only [List.drop_zero, Nat.sub_zero]
              rw [List.get?_take (by omega)]
              exact hw'
            · refine ⟨l ++ listSlice (verts.set (endIdx + 1 - 1) a) startIdx (endIdx + 1),
                by rw [hacc, List.append_assoc], get?_zero_append l _ hl⟩
          have := ih (verts.set (endIdx + 1 - 1) a) (endIdx + 1 + 1) (endIdx + 1)
            (acc ++ listSlice (verts.set (endIdx + 1 - 1) a) startIdx (endIdx + 1))
            (by omega) (by rw [List.length_set]; omega) hw' hinv'
          exact this
      · rw [Bool.eq_false_iff.mpr hpeq]
        simp only [Bool.not_false, if_true]
        exact ih verts startIdx (endIdx + 1) acc (by omega) (by omega) hw hinv
    · rw [if_neg hlt]
      refine ⟨verts, startIdx, endIdx + 1, acc, rfl, hw, ?_⟩
      rcases hinv with ⟨hs0, hacc⟩ | h
      · exact Or.inl ⟨hs0, hacc, by omega⟩
      · exact Or.inr h

/-- The first control point `convert_points` appends is the head of the
assembled vertex list, tagged with the (PerfectCurve-adjusted) path type. -/
theorem convert_points_first (p0 : Str) (rest : List Str) (ep : Option Str) (first : Bool)
    (offset : Pos2) (acc : List PathControlPoint) (vs : List PathControlPoint)
    (hV : buildVertices rest ep first offset = .ok vs)
    (v0 : PathControlPoint) (tl : List PathControlPoint) (hvs : vs = v0 :: tl)
    (out : List PathControlPoint)
    (hok : convert_points (p0 :: rest) ep first offset acc = .ok out) :
    out.get? acc.length =
      some ⟨v0.pos, some (perfectCurveAdjust (PathType.fromStr p0) vs)⟩ := by
  rw [convert_points.eq_def] at hok
  simp only [hV, hvs] at hok
  set k := perfectCurveAdjust (PathType.fromStr p0) (v0 :: tl) with hk
  set w : PathControlPoint := ⟨v0.pos, some k⟩ with hw
  have hverts : ({ v0 with kind := some k } : PathControlPoint) = w := rfl
  rw [hvs, ← hk]
  obtain ⟨verts1, s1, e1, acc1, heq, hw1, hcase⟩ :=
    segLoop_spec k (if ep.isSome then 1 else 0) w acc rfl
      (w :: tl).length (w :: tl) 0 0 acc (by simp) (by omega) rfl (Or.inl ⟨rfl, rfl⟩)
  rw [heq] at hok
  have hok2 : (if s1 < e1 then acc1 ++ listSlice verts1 s1 e1 else acc1) = out :=
    Except.ok.inj hok
  rcases hcase with ⟨hs0, hacc1, hlt⟩ | ⟨l, hacc1, hl⟩
  · subst hs0
    rw [if_pos hlt, hacc1] at hok2
    rw [← hok2, get?_append_self]
    rw [listSlice]
    simp only [List.drop_zero, Nat.sub_zero]
    rw [List.get?_take hlt]
    exact hw1
  · by_cases hlt : s1 < e1
    · rw [if_pos hlt, hacc1, List.append_assoc] at hok2
      rw [← hok2, get?_append_self]
      exact get?_zero_append l _ hl
    · rw [if_neg hlt, hacc1] at hok2
      rw [← hok2, get?_append_self]
      exact hl

/-- C4: for a slider segment whose decoded path-type code is PerfectCurve,
when the segment's assembled control-point set `vs` (default-filled first
point, parsed points, borrowed end point) is exactly three points that are
collinear within `f32::EPSILON`, the segment's recorded type is demoted to
Linear; three non-collinear points keep PerfectCurve; any other point
count demotes to Bezier.  The recorded type is the tag on the first
control point the call appends. -/
theorem c4_perfect_curve_demotion (p0 : Str) (rest : List Str) (ep : Option Str) (first : Bool)
    (offset : Pos2) (acc : List PathControlPoint) (vs : List PathControlPoint)
    (hT : PathType.fromStr p0 = .PerfectCurve)
    (hV : buildVertices rest ep first offset = .ok vs)
    (out : List PathControlPoint)
    (hok : convert_points (p0 :: rest) ep first offset acc = .ok out) :
    (∀ a b c, vs = [a, b, c] → is_linear a.pos b.pos c.pos = true →
      out.get? acc.length = some ⟨a.pos, some .Linear⟩) ∧
    (∀ a b c, vs = [a, b, c] → is_linear a.pos b.pos c.pos = false →
      out.get? acc.length = some ⟨a.pos, some .PerfectCurve⟩) ∧
    (vs.length ≠ 3 → ∃ v0 tl, vs = v0 :: tl ∧
      out.get? acc.length = some ⟨v0.pos, some .Bezier⟩) := by
  refine ⟨?_, ?_, ?_⟩
  · intro a b c hvs hlin
    have h := convert_points_first p0 rest ep first offset acc vs hV a [b, c] hvs out hok
    rw [hvs, hT] at h
    simpa [perfectCurveAdjust, hlin] using h
  · intro a b c hvs hlin
    have h := convert_points_first p0 rest ep first offset acc vs hV a [b, c] hvs out hok
    rw [hvs, hT] at h
    simpa [perfectCurveAdjust, hlin] using h
  · intro hlen
    have hvs_ne : vs ≠ [] := by
      intro hnil
      rw [convert_points.eq_def] at hok
      simp only [hV, hnil] at hok
      cases hok
    rcases hv : vs with _ | ⟨v0, tl⟩
    · exact absurd hv hvs_ne
    · refine ⟨v0, tl, rfl, ?_⟩
      have h := convert_points_first p0 rest ep first offset acc vs hV v0 tl hv out hok
      rw [hv, hT] at h
      have hadj : perfectCurveAdjust .PerfectCurve (v0 :: tl) = .Bezier := by
        rw [hv] at hlen
        rcases tl with _ | ⟨b, _ | ⟨c, _ | ⟨d, tl3⟩⟩⟩
        · simp [perfectCurveAdjust]
        · simp [perfectCurveAdjust]
        · simp at hlen
        · simp [perfectCurveAdjust]
      rw [hadj] at h
      exact h

/-- The origin position (concrete instantiations below). -/
def posOrigin : Pos2 := ⟨F.fin (Q.ofNat 0), F.fin (Q.ofNat 0)⟩

/-- The default-filled first vertex (position relative to the anchor). -/
def c4ptA : PathControlPoint := ⟨⟨F.fin (Q.ofNat 0), F.fin (Q.ofNat 0)⟩, none⟩

/-- Parsed vertex `1:0` relative to the origin anchor. -/
def c4ptB : PathControlPoint := ⟨⟨F.fin ⟨1, 1, Nat.one_pos⟩, F.fin ⟨0, 1, Nat.one_pos⟩⟩, none⟩

/-- Parsed vertex `2:0` relative to the origin anchor. -/
def c4ptC : PathControlPoint := ⟨⟨F.fin ⟨2, 1, Nat.one_pos⟩, F.fin ⟨0, 1, Nat.one_pos⟩⟩, none⟩

/-- Parsed vertex `2:1` relative to the origin anchor. -/
def c4ptC' : PathControlPoint := ⟨⟨F.fin ⟨2, 1, Nat.one_pos⟩, F.fin ⟨1, 1, Nat.one_pos⟩⟩, none⟩

/-- Output of the collinear PerfectCurve segment. -/
def c4outLin : List PathControlPoint := [⟨c4ptA.pos, some .Linear⟩, c4ptB, c4ptC]

/-- Output of the non-collinear PerfectCurve segment. -/
def c4outPerf : List PathControlPoint := [⟨c4ptA.pos, some .PerfectCurve⟩, c4ptB, c4ptC']

/-- Output of the two-point PerfectCurve segment. -/
def c4outBez : List PathControlPoint := [⟨c4ptA.pos, some .Bezier⟩, c4ptB]

/-- C4, witness: under a `P` code, the collinear three-point set
`(0,0),(1,0),(2,0)` is tagged Linear, the non-collinear
`(0,0),(1,0),(2,1)` keeps PerfectCurve, and a two-point set is tagged
Bezier. -/
theorem c4_witness :
    convert_points ["P".toList, "1:0".toList, "2:0".toList] none true posOrigin [] =
      .ok c4outLin ∧
    c4outLin.get? 0 = some ⟨c4ptA.pos, some .Linear⟩ ∧
    convert_points ["P".toList, "1:0".toList, "2:1".toList] none true posOrigin [] =
      .ok c4outPerf ∧
    c4outPerf.get? 0 = some ⟨c4ptA.pos, some .PerfectCurve⟩ ∧
    convert_points ["P".toList, "1:0".toList] none true posOrigin [] = .ok c4outBez ∧
    c4outBez.get? 0 = some ⟨c4ptA.pos, some .Bezier⟩ := by
  refine ⟨by decide, ?_, by decide, ?_, by decide, ?_⟩
  · exact (c4_perfect_curve_demotion "P".toList ["1:0".toList, "2:0".toList] none true
      posOrigin [] [c4ptA, c4ptB, c4ptC] (by decide) (by decide) c4outLin (by decide)).1
      c4ptA c4ptB c4ptC rfl (by decide)
  · exact (c4_perfect_curve_demotion "P".toList ["1:0".toList, "2:1".toList] none true
      posOrigin [] [c4ptA, c4ptB, c4ptC'] (by decide) (by decide) c4outPerf (by decide)).2.1
      c4ptA c4ptB c4ptC' rfl (by decide)
  · obtain ⟨v0, tl, hvt, hout⟩ := (c4_perfect_curve_demotion "P".toList ["1:0".toList] none
      true posOrigin [] [c4ptA, c4ptB] (by decide) (by decide) c4outBez (by decide)).2.2
      (by decide)
    cases hvt
    exact hout

/-! ## Claim C8 -/

/-- C8, counterexample: the input whose first meaningful line is
`osu file format vX` contains the header token but no integer version —
so it falls under the claim's condition ("does not contain the literal
token followed by an integer version") — yet the parse fails with the
invalid-integer error, not the incorrect-file-header error the claim
demands. -/
theorem c8_counterexample :
    Beatmap.parse ["osu file format vX".toList] = .error .InvalidInteger ∧
    Beatmap.parse ["osu file format vX".toList] ≠ .error .IncorrectFileHeader := by
  constructor <;> decide

/-- C8 (amended): every input whose first meaningful line does not contain
the literal token `osu file format v` at all fails with the
incorrect-file-header error (and no beatmap is produced); when the token
is present but what follows is not a valid `u8` version, parsing still
fails, but with the invalid-integer error instead. -/
theorem c8_missing_header (lines : List Str)
    (h : findSubstrIdx OSU_FILE_HEADER (firstMeaningful lines).1 = none) :
    Beatmap.parse lines = .error .IncorrectFileHeader := by
  rw [Beatmap.parse]
  simp only [h]

/-- C8, witness: an input with a blank line followed by a headerless line
fails with the incorrect-file-header error. -/
theorem c8_witness :
    Beatmap.parse ["".toList, "hello world".toList] = .error .IncorrectFileHeader :=
  c8_missing_header ["".toList, "hello world".toList] (by decide)

/-! ## Parse-wide invariants (used by claims C2, C3 and C9) -/

/-- The invariant `parse` maintains: validated times are finite and each
hit object was counted exactly once. -/
def MapInv (m : Beatmap) : Prop :=
  (∀ ho ∈ m.hit_objects, ho.start_time.isFinite = true) ∧
  (∀ tp ∈ m.timing_points, tp.time.isFinite = true) ∧
  (∀ dp ∈ m.difficulty_points, dp.time.isFinite = true) ∧
  m.n_circles + m.n_sliders + m.n_spinners = m.hit_objects.length

theorem validateF_ok (t time : F) (h : validateF t = .ok time) :
    time = t ∧ t.isFinite = true := by
  rw [validateF] at h
  by_cases hf : t.isFinite = true
  · rw [if_pos hf] at h
    cases h
    exact ⟨rfl, hf⟩
  · rw [if_neg hf] at h
    cases h

theorem parse_general_shape (map : Beatmap) (lines : List Str) (map' : Beatmap)
    (next : Option (Section × List Str)) (h : parse_general map lines = .ok (map', next)) :
    map'.hit_objects = map.hit_objects ∧ map'.timing_points = map.timing_points ∧
    map'.difficulty_points = map.difficulty_points ∧ map'.n_circles = map.n_circles ∧
    map'.n_sliders = map.n_sliders ∧ map'.n_spinners = map.n_spinners := by
  rw [parse_general] at h
  rcases hg : generalLoop lines none none with e | ⟨mode, sl, nx⟩ <;> simp only [hg] at h
  · cases h
  · cases h
    exact ⟨rfl, rfl, rfl, rfl, rfl, rfl⟩

theorem parse_difficulty_shape (map : Beatmap) (lines : List Str) (map' : Beatmap)
    (next : Option (Section × List Str)) (h : parse_difficulty map lines = .ok (map', next)) :
    map'.hit_objects = map.hit_objects ∧ map'.timing_points = map.timing_points ∧
    map'.difficulty_points = map.difficulty_points ∧ map'.n_circles = map.n_circles ∧
    map'.n_sliders = map.n_sliders ∧ map'.n_spinners = map.n_spinners ∧
    map'.mode = map.mode := by
  rw [parse_difficulty] at h
  rcases hd : difficultyLoop lines none none none none none none
    with e | ⟨⟨ar, od, cs, hp, sv, tick⟩, nx⟩ <;> simp only [hd] at h
  · cases h
  · rcases od with _ | odv
    · cases h
    · rcases cs with _ | csv
      · cases h
      · rcases hp with _ | hpv
        · cases h
        · rcases sv with _ | svv
          · cases h
          · rcases tick with _ | tickv
            · cases h
            · cases h
              exact ⟨rfl, rfl, rfl, rfl, rfl, rfl, rfl⟩

theorem timingPointStep_shape (time beatLen : F) (st : TPState)
    (ht : time.isFinite = true) :
    (timingPointStep time beatLen st).map.hit_objects = st.map.hit_objects ∧
    (timingPointStep time beatLen st).map.n_circles = st.map.n_circles ∧
    (timingPointStep time beatLen st).map.n_sliders = st.map.n_sliders ∧
    (timingPointStep time beatLen st).map.n_spinners = st.map.n_spinners ∧
    (MapInv st.map → MapInv (timingPointStep time beatLen st).map) := by
  rw [timingPointStep]
  split
  · split <;>
    · refine ⟨rfl, rfl, rfl, rfl, ?_⟩
      rintro ⟨h1, h2, h3, h4⟩
      refine ⟨h1, h2, ?_, h4⟩
      intro dp hdp
      simp only [List.mem_append, List.mem_singleton] at hdp
      rcases hdp with hdp | rfl
      · exact h3 dp hdp
      · exact ht
  · split <;>
    · refine ⟨rfl, rfl, rfl, rfl, ?_⟩
      rintro ⟨h1, h2, h3, h4⟩
      refine ⟨h1, ?_, h3, h4⟩
      intro tp htp
      simp only [List.mem_append, List.mem_singleton] at htp
      rcases htp with htp | rfl
      · exact h2 tp htp
      · exact ht

theorem timingPointsLoop_shape :
    ∀ (lines : List Str) (st : TPState) (out : TPState × Option (Section × List Str)),
    timingPointsLoop lines st = .ok out →
    out.1.map.hit_objects = st.map.hit_objects ∧
    out.1.map.n_circles = st.map.n_circles ∧
    out.1.map.n_sliders = st.map.n_sliders ∧
    out.1.map.n_spinners = st.map.n_spinners ∧
    (MapInv st.map → MapInv out.1.map) := by
  intro lines
  induction lines with
  | nil =>
    intro st out h
    rw [timingPointsLoop] at h
    cases h
    exact ⟨rfl, rfl, rfl, rfl, fun hinv => hinv⟩
  | cons raw rest ih =>
    intro st out h
    rw [timingPointsLoop] at h
    rcases hp : prepLine raw with _ | line <;> simp only [hp] at h
    · exact ih st out h
    · by_cases hb : isBracketLine line = true
      · rw [if_pos hb] at h
        cases h
        exact ⟨rfl, rfl, rfl, rfl, fun hinv => hinv⟩
      · rw [if_neg hb] at h
        rcases hsp : splitOnChar ',' line with _ | ⟨f0, rest0⟩ <;> simp only [hsp] at h
        · cases h
        · rcases hf0 : parseF (trimBoth f0) with _ | t0 <;> simp only [hf0] at h
          · cases h
          · rcases hv : validateF t0 with e | time <;> simp only [hv] at h
            · cases h
            · rcases rest0 with _ | ⟨f1, rest1⟩ <;> simp only [] at h
              · cases h
              · rcases hf1 : parseF (trimBoth f1) with _ | beatLen <;> simp only [hf1] at h
                · cases h
                · have htf := (validateF_ok t0 time hv)
                  have hfin : time.isFinite = true := htf.1 ▸ htf.2
                  have hstep := timingPointStep_shape time beatLen st hfin
                  have hrec := ih (timingPointStep time beatLen st) out h
                  exact ⟨hrec.1.trans hstep.1, hrec.2.1.trans hstep.2.1,
                    hrec.2.2.1.trans hstep.2.2.1, hrec.2.2.2.1.trans hstep.2.2.2.1,
                    fun hinv => hrec.2.2.2.2 (hstep.2.2.2.2 hinv)⟩

theorem MapInv_sortTimings (m : Beatmap) (hinv : MapInv m) :
    MapInv { m with timing_points := insertionSortBy timingPointLe m.timing_points } := by
  obtain ⟨h1, h2, h3, h4⟩ := hinv
  exact ⟨h1, fun tp htp => h2 tp ((mem_insertionSortBy _ _ _).mp htp), h3, h4⟩

theorem MapInv_sortDifficulties (m : Beatmap) (hinv : MapInv m) :
    MapInv { m with difficulty_points := insertionSortBy difficultyPointLe m.difficulty_points } := by
  obtain ⟨h1, h2, h3, h4⟩ := hinv
  exact ⟨h1, h2, fun dp hdp => h3 dp ((mem_insertionSortBy _ _ _).mp hdp), h4⟩

theorem parse_timingpoints_shape (map : Beatmap) (lines : List Str) (map' : Beatmap)
    (next : Option (Section × List Str)) (h : parse_timingpoints map lines = .ok (map', next)) :
    map'.hit_objects = map.hit_objects ∧
    map'.n_circles = map.n_circles ∧
    map'.n_sliders = map.n_sliders ∧
    map'.n_spinners = map.n_spinners ∧
    (MapInv map → MapInv map') := by
  rw [parse_timingpoints] at h
  rcases hl : timingPointsLoop lines ⟨map, false, false, F.fin (Q.ofNat 0), F.fin (Q.ofNat 0)⟩
    with e | ⟨st, nx⟩ <;> simp only [hl] at h
  · cases h
  · have hloop := timingPointsLoop_shape lines _ (st, nx) hl
    simp only at hloop
    cases h
    constructor
    · by_cases ht : st.unsortedTimings = true <;> by_cases hd : st.unsortedDifficulties = true <;>
        simp [ht, hd, hloop.1]
    constructor
    · by_cases ht : st.unsortedTimings = true <;> by_cases hd : st.unsortedDifficulties = true <;>
        simp [ht, hd, hloop.2.1]
    constructor
    · by_cases ht : st.unsortedTimings = true <;> by_cases hd : st.unsortedDifficulties = true <;>
        simp [ht, hd, hloop.2.2.1]
    constructor
    · by_cases ht : st.unsortedTimings = true <;> by_cases hd : st.unsortedDifficulties = true <;>
        simp [ht, hd, hloop.2.2.2.1]
    · intro hinv
      have hst := hloop.2.2.2.2 hinv
      by_cases ht : st.unsortedTimings = true <;> by_cases hd : st.unsortedDifficulties = true <;>
        simp only [ht, hd, if_true, if_false, Bool.false_eq_true]
      · exact MapInv_sortDifficulties _ (MapInv_sortTimings _ hst)
      · exact MapInv_sortTimings _ hst
      · exact MapInv_sortDifficulties _ hst
      · exact hst

theorem parseHitObjectLine_time_finite (line : Str) (obj : HitObject) (c : CountedAs)
    (h : parseHitObjectLine line = .ok (obj, c)) : obj.start_time.isFinite = true := by
  rw [parseHitObjectLine] at h
  rcases hsp : splitOnChar ',' line with _ | ⟨f0, rest0⟩ <;> simp only [hsp] at h
  · cases h
  · rcases hx : parseF f0 with _ | x <;> simp only [hx] at h
    · cases h
    · rcases rest0 with _ | ⟨f1, rest1⟩ <;> simp only [] at h
      · cases h
      · rcases hy : parseF f1 with _ | y <;> simp only [hy] at h
        · cases h
        · rcases rest1 with _ | ⟨f2, rest2⟩ <;> simp only [] at h
          · cases h
          · rcases ht : parseF (trimBoth f2) with _ | t <;> simp only [ht] at h
            · cases h
            · rcases hv : validateF t with e | time <;> simp only [hv] at h
              · cases h
              · rcases rest2 with _ | ⟨f3, rest3⟩ <;> simp only [] at h
                · cases h
                · rcases hk : parseU8 f3 with _ | kindBits <;> simp only [hk] at h
                  · cases h
                  · have hfin : time.isFinite = true := by
                      have := validateF_ok t time hv
                      rw [this.1]
                      exact this.2
                    rcases rest3 with _ | ⟨f4, rest4⟩ <;> simp only [] at h
                    · rcases hc : classifyHitObject kindBits [] time ⟨x, y⟩
                        with e | ⟨kind, counted⟩ <;> simp only [hc] at h
                      · cases h
                      · cases h
                        exact hfin
                    · rcases hs : parseU8 f4 with _ | snd <;> simp only [hs] at h
                      · cases h
                      · rcases hc : classifyHitObject kindBits rest4 time ⟨x, y⟩
                          with e | ⟨kind, counted⟩ <;> simp only [hc] at h
                        · cases h
                        · cases h
                          exact hfin

theorem countedAs_one (c : CountedAs) :
    (if c = .circle then 1 else 0) + (if c = .slider then 1 else 0) +
      (if c = .spinner then 1 else 0) = 1 := by
  cases c <;> decide

theorem hitObjectsLoop_inv :
    ∀ (lines : List Str) (map : Beatmap) (unsorted : Bool) (prev : F)
      (out : Beatmap × Bool × Option (Section × List Str)),
    hitObjectsLoop lines map unsorted prev = .ok out →
    MapInv map → MapInv out.1 ∧ out.1.timing_points = map.timing_points ∧
      out.1.difficulty_points = map.difficulty_points ∧ out.1.mode = map.mode := by
  intro lines
  induction lines with
  | nil =>
    intro map unsorted prev out h hinv
    rw [hitObjectsLoop] at h
    cases h
    exact ⟨hinv, rfl, rfl, rfl⟩
  | cons raw rest ih =>
    intro map unsorted prev out h hinv
    rw [hitObjectsLoop] at h
    rcases hp : prepLine raw with _ | line <;> simp only [hp] at h
    · exact ih map unsorted prev out h hinv
    · by_cases hb : isBracketLine line = true
      · rw [if_pos hb] at h
        cases h
        exact ⟨hinv, rfl, rfl, rfl⟩
      · rw [if_neg hb] at h
        rcases hl : parseHitObjectLine line with e | ⟨obj, counted⟩ <;> simp only [hl] at h
        · cases h
        · obtain ⟨h1, h2, h3, h4⟩ := hinv
          have hfin := parseHitObjectLine_time_finite line obj counted hl
          have hinv' : MapInv { map with
              hit_objects := map.hit_objects ++ [obj]
              n_circles := map.n_circles + (if counted = .circle then 1 else 0)
              n_sliders := map.n_sliders + (if counted = .slider then 1 else 0)
              n_spinners := map.n_spinners + (if counted = .spinner then 1 else 0) } := by
            refine ⟨?_, h2, h3, ?_⟩
            · intro x hx
              simp only [List.mem_append, List.mem_singleton] at hx
              rcases hx with hx | rfl
              · exact h1 x hx
              · exact hfin
            · simp only [List.length_append, List.length_singleton]
              have := countedAs_one counted
              omega
          exact ih { map with
              hit_objects := map.hit_objects ++ [obj]
              n_circles := map.n_circles + (if counted = .circle then 1 else 0)
              n_sliders := map.n_sliders + (if counted = .slider then 1 else 0)
              n_spinners := map.n_spinners + (if counted = .spinner then 1 else 0) }
            (if !map.hit_objects.isEmpty && F.flt obj.start_time prev then true else unsorted)
            obj.start_time out h hinv'

theorem parse_hitobjects_inv (map : Beatmap) (lines : List Str) (map' : Beatmap)
    (next : Option (Section × List Str)) (h : parse_hitobjects map lines = .ok (map', next))
    (hinv : MapInv map) : MapInv map' := by
  rw [parse_hitobjects] at h
  rcases hl : hitObjectsLoop lines map false (F.fin (Q.ofNat 0))
    with e | ⟨map1, unsorted, nx⟩ <;> simp only [hl] at h
  · cases h
  · obtain ⟨hinv1, -, -, -⟩ := hitObjectsLoop_inv lines map false (F.fin (Q.ofNat 0))
      (map1, unsorted, nx) hl hinv
    obtain ⟨h1, h2, h3, h4⟩ := hinv1
    have hsorted : MapInv { map1 with
        hit_objects := legacy_sort (insertionSortBy hitObjectLe map1.hit_objects) } := by
      rw [legacy_sort]
      refine ⟨?_, h2, h3, ?_⟩
      · intro x hx
        exact h1 x ((mem_insertionSortBy _ _ _).mp hx)
      · simp only [length_insertionSortBy]
        exact h4
    have hsorted2 : MapInv { map1 with
        hit_objects := insertionSortBy hitObjectLe map1.hit_objects } := by
      refine ⟨?_, h2, h3, ?_⟩
      · intro x hx
        exact h1 x ((mem_insertionSortBy _ _ _).mp hx)
      · simp only [length_insertionSortBy]
        exact h4
    by_cases hm : map1.mode = GameMode.MNA
    · rw [if_pos hm] at h
      cases h
      exact hsorted
    · rw [if_neg hm] at h
      by_cases hu : unsorted = true
      · rw [if_pos hu] at h
        cases h
        exact hsorted2
      · rw [if_neg hu] at h
        cases h
        exact ⟨h1, h2, h3, h4⟩

theorem MapInv_of_eq (m m' : Beatmap)
    (h1 : m'.hit_objects = m.hit_objects) (h2 : m'.timing_points = m.timing_points)
    (h3 : m'.difficulty_points = m.difficulty_points) (h4 : m'.n_circles = m.n_circles)
    (h5 : m'.n_sliders = m.n_sliders) (h6 : m'.n_spinners = m.n_spinners)
    (hinv : MapInv m) : MapInv m' := by
  obtain ⟨a, b, c, d⟩ := hinv
  refine ⟨h1 ▸ a, h2 ▸ b, h3 ▸ c, ?_⟩
  rw [h1, h4, h5, h6]
  exact d

theorem sectionsLoop_MapInv :
    ∀ (fuel : Nat) (map : Beatmap) (sec : Section) (lines : List Str) (m : Beatmap),
    sectionsLoop fuel map sec lines = .ok m → MapInv map → MapInv m := by
  intro fuel
  induction fuel with
  | zero =>
    intro map sec lines m h
    rw [sectionsLoop.eq_def] at h
    cases h
  | succ fuel ih =>
    intro map sec lines m h hinv
    rw [sectionsLoop.eq_def] at h
    cases sec with
    | NoSection =>
      rcases lines with _ | ⟨raw, rest⟩
      · cases h
        exact hinv
      · simp only [] at h
        rcases hp : prepLine raw with _ | line <;> simp only [hp] at h
        · exact ih _ _ _ _ h hinv
        · by_cases hb : isBracketLine line = true
          · rw [if_pos hb] at h
            exact ih _ _ _ _ h hinv
          · rw [if_neg hb] at h
            exact ih _ _ _ _ h hinv
    | General =>
      rcases hg : parse_general map lines with e | ⟨map', nx⟩ <;> simp only [hg] at h
      · cases h
      · have hsh := parse_general_shape map lines map' nx hg
        have hinv' : MapInv map' := MapInv_of_eq map map' hsh.1 hsh.2.1 hsh.2.2.1
          hsh.2.2.2.1 hsh.2.2.2.2.1 hsh.2.2.2.2.2 hinv
        rcases nx with _ | ⟨sec', rest⟩
        · cases h
          exact hinv'
        · exact ih _ _ _ _ h hinv'
    | Difficulty =>
      rcases hg : parse_difficulty map lines with e | ⟨map', nx⟩ <;> simp only [hg] at h
      · cases h
      · have hsh := parse_difficulty_shape map lines map' nx hg
        have hinv' : MapInv map' := MapInv_of_eq map map' hsh.1 hsh.2.1 hsh.2.2.1
          hsh.2.2.2.1 hsh.2.2.2.2.1 hsh.2.2.2.2.2.1 hinv
        rcases nx with _ | ⟨sec', rest⟩
        · cases h
          exact hinv'
        · exact ih _ _ _ _ h hinv'
    | TimingPoints =>
      rcases hg : parse_timingpoints map lines with e | ⟨map', nx⟩ <;> simp only [hg] at h
      · cases h
      · have hsh := parse_timingpoints_shape map lines map' nx hg
        have hinv' : MapInv map' := hsh.2.2.2.2 hinv
        rcases nx with _ | ⟨sec', rest⟩
        · cases h
          exact hinv'
        · exact ih _ _ _ _ h hinv'
    | HitObjects =>
      rcases hg : parse_hitobjects map lines with e | ⟨map', nx⟩ <;> simp only [hg] at h
      · cases h
      · have hinv' : MapInv map' := parse_hitobjects_inv map lines map' nx hg hinv
        rcases nx with _ | ⟨sec', rest⟩
        · cases h
          exact hinv'
        · exact ih _ _ _ _ h hinv'

/-- Every successful parse maintains `MapInv`. -/
theorem parse_MapInv (lines : List Str) (m : Beatmap) (h : Beatmap.parse lines = .ok m) :
    MapInv m := by
  rw [Beatmap.parse] at h
  rcases hf : findSubstrIdx OSU_FILE_HEADER (firstMeaningful lines).1 with _ | idx <;>
    simp only [hf] at h
  · cases h
  · rcases hv : parseU8 (trimEnd ((firstMeaningful lines).1.drop (idx + OSU_FILE_HEADER.length)))
      with _ | version <;> simp only [hv] at h
    · cases h
    · exact sectionsLoop_MapInv _ _ _ _ _ h
        ⟨fun _ hx => absurd hx (List.not_mem_nil _),
         fun _ hx => absurd hx (List.not_mem_nil _),
         fun _ hx => absurd hx (List.not_mem_nil _), rfl⟩

/-! ## Claims C2 and C9 -/

/-- The difficulty section whose `ApproachRate` value is the literal `inf`. -/
def c2Input : List Str :=
  ["osu file format v14".toList, "[Difficulty]".toList, "ApproachRate:inf".toList,
   "OverallDifficulty:5".toList, "CircleSize:4".toList, "HPDrainRate:6".toList,
   "SliderMultiplier:1.4".toList, "SliderTickRate:1".toList]

/-- The beatmap `c2Input` parses to. -/
def c2Map : Beatmap :=
  { Beatmap.default with
    version := 14
    ar := F.inf
    od := F.fin (Q.ofNat 5)
    cs := F.fin (Q.ofNat 4)
    hp := F.fin (Q.ofNat 6)
    slider_mult := F.fin ⟨14, 10, by norm_num⟩
    tick_rate := F.fin (Q.ofNat 1) }

/-- C2, counterexample: an `ApproachRate` field that parses to infinity
(one of the fields the claim lists) does NOT make the parse fail — the
parse succeeds and the returned beatmap carries `ar = inf`. -/
theorem c2_counterexample :
    Beatmap.parse c2Input = .ok c2Map ∧ c2Map.ar = F.inf ∧ c2Map.ar.isFinite = false := by
  refine ⟨by decide, rfl, rfl⟩

/-- C2 (amended): only the hit-object start time and the timing-point time
are validated for finiteness (`FloatExt::validate`); every beatmap
returned by a successful parse has only finite hit-object start times,
timing-point times and difficulty-point times.  The other float fields
read from text (positions, beat length, the difficulty settings,
`SliderMultiplier`, `SliderTickRate`) are not validated and may be
non-finite in a returned beatmap. -/
theorem c2_validated_times_finite (lines : List Str) (m : Beatmap)
    (h : Beatmap.parse lines = .ok m) :
    (∀ ho ∈ m.hit_objects, ho.start_time.isFinite = true) ∧
    (∀ tp ∈ m.timing_points, tp.time.isFinite = true) ∧
    (∀ dp ∈ m.difficulty_points, dp.time.isFinite = true) := by
  obtain ⟨a, b, c, -⟩ := parse_MapInv lines m h
  exact ⟨a, b, c⟩

/-- An input with a hit object and a timing point (concrete instantiations
below). -/
def c2wInput : List Str :=
  ["osu file format v14".toList, "[TimingPoints]".toList, "0,300".toList,
   "[HitObjects]".toList, "0,0,100,1,0".toList]

/-- The beatmap `c2wInput` parses to. -/
def c2wMap : Beatmap :=
  { Beatmap.default with
    version := 14
    n_circles := 1
    hit_objects := [⟨⟨F.fin (Q.ofNat 0), F.fin (Q.ofNat 0)⟩, F.fin (Q.ofNat 100), .Circle, 0⟩]
    timing_points := [⟨F.fin (Q.ofNat 0), F.fin (Q.ofNat 300)⟩] }

/-- C2, witness: the parse of `c2wInput` succeeds and all of its validated
times are finite. -/
theorem c2_witness :
    Beatmap.parse c2wInput = .ok c2wMap ∧
    c2wMap.hit_objects.all (fun ho => ho.start_time.isFinite) = true ∧
    c2wMap.timing_points.all (fun tp => tp.time.isFinite) = true ∧
    c2wMap.difficulty_points.all (fun dp => dp.time.isFinite) = true := by
  have hp : Beatmap.parse c2wInput = .ok c2wMap := by decide
  have h := c2_validated_times_finite c2wInput c2wMap hp
  refine ⟨hp, ?_, ?_, ?_⟩
  · rw [List.all_eq_true]
    exact fun ho hho => h.1 ho hho
  · rw [List.all_eq_true]
    exact fun tp htp => h.2.1 tp htp
  · rw [List.all_eq_true]
    exact fun dp hdp => h.2.2 dp hdp

/-- C9: for every input that parses successfully, the three object
counters sum to the number of hit objects (each parsed object increments
exactly one counter; holds increment `n_sliders`, as do sliders that
degrade to a circle kind). -/
theorem c9_counts_sum (lines : List Str) (m : Beatmap) (h : Beatmap.parse lines = .ok m) :
    m.n_circles + m.n_sliders + m.n_spinners = m.hit_objects.length :=
  (parse_MapInv lines m h).2.2.2

/-- An input with a circle, a spinner and a hold note (concrete
instantiations below). -/
def c9Input : List Str :=
  ["osu file format v14".toList, "[HitObjects]".toList, "0,0,100,1,0".toList,
   "0,0,500,8,0,1500".toList, "0,0,1000,128,0,2000:0".toList]

/-- The beatmap `c9Input` parses to: the hold note was counted in
`n_sliders`. -/
def c9Map : Beatmap :=
  { Beatmap.default with
    version := 14
    n_circles := 1
    n_sliders := 1
    n_spinners := 1
    hit_objects :=
      [⟨⟨F.fin (Q.ofNat 0), F.fin (Q.ofNat 0)⟩, F.fin (Q.ofNat 100), .Circle, 0⟩,
       ⟨⟨F.fin (Q.ofNat 0), F.fin (Q.ofNat 0)⟩, F.fin (Q.ofNat 500),
         .Spinner (F.fin (Q.ofNat 1500)), 0⟩,
       ⟨⟨F.fin (Q.ofNat 0), F.fin (Q.ofNat 0)⟩, F.fin (Q.ofNat 1000),
         .Hold (F.fin (Q.ofNat 2000)), 0⟩] }

/-- C9, witness: `c9Input` parses successfully and its counters (1 circle,
1 "slider" — the hold note — and 1 spinner) sum to its 3 hit objects. -/
theorem c9_witness :
    Beatmap.parse c9Input = .ok c9Map ∧
    c9Map.n_circles + c9Map.n_sliders + c9Map.n_spinners = c9Map.hit_objects.length :=
  ⟨by decide, c9_counts_sum c9Input c9Map (by decide)⟩

/-! ## Claim C3 -/

/-- A raw input line that (after line preparation) is a `[HitObjects]`
section header. -/
def isHOHeader (raw : Str) : Bool :=
  match prepLine raw with
  | none => false
  | some line =>
    isBracketLine line && decide (Section.fromStr (bracketContent line) = Section.HitObjects)

/-- How many `[HitObjects]` headers an input contains. -/
def hoHeaderCount (lines : List Str) : Nat := List.countP isHOHeader lines

theorem hoHeaderCount_cons (raw : Str) (rest : List Str) :
    hoHeaderCount (raw :: rest) =
      hoHeaderCount rest + (if isHOHeader raw = true then 1 else 0) := by
  rw [hoHeaderCount, hoHeaderCount, List.countP_cons]

theorem isHOHeader_of_prep_none (raw : Str) (h : prepLine raw = none) :
    isHOHeader raw = false := by
  rw [isHOHeader, h]

theorem isHOHeader_of_not_bracket (raw line : Str) (h : prepLine raw = some line)
    (hb : isBracketLine line = false) : isHOHeader raw = false := by
  rw [isHOHeader, h]
  simp [hb]

theorem isHOHeader_of_bracket (raw line : Str) (h : prepLine raw = some line)
    (hb : isBracketLine line = true) :
    isHOHeader raw = decide (Section.fromStr (bracketContent line) = Section.HitObjects) := by
  rw [isHOHeader, h]
  simp [hb]

theorem Q.ble_eq_not_blt (a b : Q) : Q.ble a b = !Q.blt b a := by
  by_cases h : a.toRat ≤ b.toRat
  · have h1 : Q.ble a b = true := (Q.ble_iff a b).mpr h
    have h2 : Q.blt b a = false := by
      rw [Bool.eq_false_iff]
      intro hc
      exact absurd ((Q.blt_iff b a).mp hc) (not_lt.mpr h)
    rw [h1, h2]
    rfl
  · have h1 : Q.ble a b = false := by
      rw [Bool.eq_false_iff]
      intro hc
      exact h ((Q.ble_iff a b).mp hc)
    have h2 : Q.blt b a = true := (Q.blt_iff b a).mpr (not_le.mp h)
    rw [h1, h2]
    rfl

/-- On finite values, IEEE `<=` agrees with the negated reversed `<` (the
comparator the hit-object sorts use). -/
theorem fle_eq_not_flt (x y : F) (hx : x.isFinite = true) (hy : y.isFinite = true) :
    F.fle x y = !F.flt y x := by
  cases x with
  | fin a =>
    cases y with
    | fin b => exact Q.ble_eq_not_blt a b
    | inf => cases hy
    | ninf => cases hy
    | nan => cases hy
  | inf => cases hx
  | ninf => cases hx
  | nan => cases hx

theorem hitObjectLe_trans_finite (x y z : HitObject)
    (hx : x.start_time.isFinite = true) (hy : y.start_time.isFinite = true)
    (hz : z.start_time.isFinite = true) :
    hitObjectLe x y = true → hitObjectLe y z = true → hitObjectLe x z = true := by
  rcases x with ⟨_, tx, _, _⟩
  rcases y with ⟨_, ty, _, _⟩
  rcases z with ⟨_, tz, _, _⟩
  rcases tx with ax | _ | _ | _ <;> try cases hx
  rcases ty with ay | _ | _ | _ <;> try cases hy
  rcases tz with az | _ | _ | _ <;> try cases hz
  simp only [hitObjectLe, F.flt, Bool.not_eq_true']
  intro h1 h2
  rw [Bool.eq_false_iff]
  intro hc
  have q1 : ¬ ay.toRat < ax.toRat := fun hq => by
    rw [(Q.blt_iff ay ax).mpr hq] at h1
    cases h1
  have q2 : ¬ az.toRat < ay.toRat := fun hq => by
    rw [(Q.blt_iff az ay).mpr hq] at h2
    cases h2
  have q3 := (Q.blt_iff az ax).mp hc
  linarith [not_lt.mp q1, not_lt.mp q2]

theorem hitObjectLe_total_finite (x y : HitObject)
    (hx : x.start_time.isFinite = true) (hy : y.start_time.isFinite = true) :
    hitObjectLe x y = true ∨ hitObjectLe y x = true := by
  rcases x with ⟨_, tx, _, _⟩
  rcases y with ⟨_, ty, _, _⟩
  rcases tx with ax | _ | _ | _ <;> try cases hx
  rcases ty with ay | _ | _ | _ <;> try cases hy
  simp only [hitObjectLe, F.flt, Bool.not_eq_true']
  rcases le_total ax.toRat ay.toRat with h | h
  · left
    rw [Bool.eq_false_iff]
    intro hc
    exact absurd ((Q.blt_iff ay ax).mp hc) (not_lt.mpr h)
  · right
    rw [Bool.eq_false_iff]
    intro hc
    exact absurd ((Q.blt_iff ax ay).mp hc) (not_lt.mpr h)

/-- A `hitObjectLe`-chain of finite-time objects is a nondecreasing
`fle`-chain. -/
theorem chain_le_to_fle :
    ∀ (l : List HitObject), (∀ h ∈ l, h.start_time.isFinite = true) →
    List.Chain' (fun a b => hitObjectLe a b = true) l →
    List.Chain' (fun a b => F.fle a.start_time b.start_time = true) l := by
  intro l
  induction l with
  | nil => intro _ _; exact List.chain'_nil
  | cons a t ih =>
    intro hfin hch
    rcases t with _ | ⟨b, t2⟩
    · exact List.chain'_singleton a
    · rw [List.chain'_cons] at hch ⊢
      refine ⟨?_, ih (fun x hx => hfin x (by simp [hx])) hch.2⟩
      rw [fle_eq_not_flt _ _ (hfin a (by simp)) (hfin b (by simp))]
      exact hch.1

/-- The HitObjects line loop starting from an unsorted-flag-false state
whose list is chain-sorted with its last time equal to `prev`: if the
final flag is still false, the final list is chain-sorted (and its times
are all finite either way). -/
theorem hitObjectsLoop_sorted :
    ∀ (lines : List Str) (map : Beatmap) (unsorted : Bool) (prev : F)
      (out : Beatmap × Bool × Option (Section × List Str)),
    hitObjectsLoop lines map unsorted prev = .ok out →
    (∀ h ∈ map.hit_objects, h.start_time.isFinite = true) →
    (unsorted = false →
      List.Chain' (fun a b => hitObjectLe a b = true) map.hit_objects ∧
      (map.hit_objects = [] ∨ ∃ last, map.hit_objects.getLast? = some last ∧
        last.start_time = prev)) →
    (∀ h ∈ out.1.hit_objects, h.start_time.isFinite = true) ∧
    (out.2.1 = false → List.Chain' (fun a b => hitObjectLe a b = true) out.1.hit_objects) := by
  intro lines
  induction lines with
  | nil =>
    intro map unsorted prev out h hfin hsort
    rw [hitObjectsLoop] at h
    cases h
    exact ⟨hfin, fun hu => (hsort hu).1⟩
  | cons raw rest ih =>
    intro map unsorted prev out h hfin hsort
    rw [hitObjectsLoop] at h
    rcases hp : prepLine raw with _ | line <;> simp only [hp] at h
    · exact ih map unsorted prev out h hfin hsort
    · by_cases hb : isBracketLine line = true
      · rw [if_pos hb] at h
        cases h
        exact ⟨hfin, fun hu => (hsort hu).1⟩
      · rw [if_neg hb] at h
        rcases hl : parseHitObjectLine line with e | ⟨obj, counted⟩ <;> simp only [hl] at h
        · cases h
        · have hofin := parseHitObjectLine_time_finite line obj counted hl
          have hfin' : ∀ x ∈ map.hit_objects ++ [obj], x.start_time.isFinite = true := by
            intro x hx
            simp only [List.mem_append, List.mem_singleton] at hx
            rcases hx with hx | rfl
            · exact hfin x hx
            · exact hofin
          refine ih _ _ _ out h hfin' ?_
          intro hu'
          by_cases hcond : (!map.hit_objects.isEmpty && F.flt obj.start_time prev) = true
          · rw [if_pos hcond] at hu'
            cases hu'
          · rw [if_neg hcond] at hu'
            obtain ⟨hch, hlast⟩ := hsort hu'
            constructor
            · rw [List.chain'_append]
              refine ⟨hch, List.chain'_singleton obj, ?_⟩
              intro x hx y hy
              simp only [List.head?_cons, Option.mem_def, Option.some.injEq] at hy
              subst hy
              rcases hlast with hnil | ⟨last, hl?, hlt⟩
              · rw [hnil] at hx
                simp at hx
              · rw [hl?] at hx
                simp only [Option.mem_def, Option.some.injEq] at hx
                subst hx
                rw [hitObjectLe, hlt]
                simp only [Bool.not_eq_true', Bool.eq_false_iff]
                intro hflt
                apply hcond
                rw [hflt]
                rcases hmap : map.hit_objects with _ | _
                · rw [hmap] at hl?
                  cases hl?
                · simp [hmap]
            · right
              exact ⟨obj, List.getLast?_concat _, rfl⟩

/-- `parse_hitobjects` started on a map with no hit objects returns a
time-sorted list of finite-time hit objects (for any mode: the mania
branch applies the stable time sort before the legacy pass, the other
branch sorts exactly when an out-of-order insertion was seen). -/
theorem parse_hitobjects_c3 (map : Beatmap) (lines : List Str) (map' : Beatmap)
    (next : Option (Section × List Str)) (h : parse_hitobjects map lines = .ok (map', next))
    (hempty : map.hit_objects = []) :
    List.Chain' (fun a b => F.fle a.start_time b.start_time = true) map'.hit_objects ∧
    (∀ ho ∈ map'.hit_objects, ho.start_time.isFinite = true) := by
  rw [parse_hitobjects] at h
  rcases hl : hitObjectsLoop lines map false (F.fin (Q.ofNat 0))
    with e | ⟨map1, unsorted, nx⟩ <;> simp only [hl] at h
  · cases h
  · obtain ⟨hfin, hchain⟩ := hitObjectsLoop_sorted lines map false (F.fin (Q.ofNat 0))
      (map1, unsorted, nx) hl
      (by rw [hempty]; intro x hx; cases hx)
      (fun _ => ⟨by rw [hempty]; exact List.chain'_nil, Or.inl hempty⟩)
    simp only at hfin hchain
    have hsortedfin : ∀ x ∈ insertionSortBy hitObjectLe map1.hit_objects,
        x.start_time.isFinite = true :=
      fun x hx => hfin x ((mem_insertionSortBy _ _ _).mp hx)
    have hsorted : List.Chain' (fun a b => F.fle a.start_time b.start_time = true)
        (insertionSortBy hitObjectLe map1.hit_objects) := by
      apply chain_le_to_fle _ hsortedfin
      have := pairwise_insertionSortBy hitObjectLe
        (fun ho => ho.start_time.isFinite = true)
        (fun x y z hx hy hz => hitObjectLe_trans_finite x y z hx hy hz)
        (fun x y hx hy => hitObjectLe_total_finite x y hx hy)
        map1.hit_objects hfin
      exact this.chain'
    by_cases hm : map1.mode = GameMode.MNA
    · rw [if_pos hm] at h
      cases h
      exact ⟨hsorted, hsortedfin⟩
    · rw [if_neg hm] at h
      by_cases hu : unsorted = true
      · rw [if_pos hu] at h
        cases h
        exact ⟨hsorted, hsortedfin⟩
      · rw [if_neg hu] at h
        cases h
        refine ⟨?_, hfin⟩
        apply chain_le_to_fle _ hfin
        exact hchain (Bool.eq_false_iff.mpr hu)

theorem hdr_step_skip (raw : Str) (rest0 rest : List Str) (sec' : Section)
    (hho : isHOHeader raw = false)
    (hle : hoHeaderCount rest + (if sec' = Section.HitObjects then 1 else 0) ≤
      hoHeaderCount rest0) :
    hoHeaderCount rest + (if sec' = Section.HitObjects then 1 else 0) ≤
      hoHeaderCount (raw :: rest0) := by
  rw [hoHeaderCount_cons, hho]
  simpa using hle

theorem hdr_step_bracket (raw line : Str) (rest0 : List Str) (hp : prepLine raw = some line)
    (hb : isBracketLine line = true) :
    hoHeaderCount rest0 +
      (if Section.fromStr (bracketContent line) = Section.HitObjects then 1 else 0) ≤
      hoHeaderCount (raw :: rest0) := by
  rw [hoHeaderCount_cons, isHOHeader_of_bracket raw line hp hb]
  by_cases hho : Section.fromStr (bracketContent line) = Section.HitObjects
  · simp [hho]
  · simp [hho]

theorem generalLoop_hdr :
    ∀ (lines : List Str) (mode : Option GameMode) (sl : Option F)
      (res : Option GameMode × Option F × Option (Section × List Str)),
    generalLoop lines mode sl = .ok res →
    ∀ (sec' : Section) (rest : List Str), res.2.2 = some (sec', rest) →
    hoHeaderCount rest + (if sec' = Section.HitObjects then 1 else 0) ≤ hoHeaderCount lines := by
  intro lines
  induction lines with
  | nil =>
    intro mode sl res h sec' rest hr
    rw [generalLoop] at h
    cases h
    cases hr
  | cons raw rest0 ih =>
    intro mode sl res h sec' rest hr
    rw [generalLoop] at h
    rcases hp : prepLine raw with _ | line <;> simp only [hp] at h
    · exact hdr_step_skip raw rest0 rest sec' (isHOHeader_of_prep_none raw hp)
        (ih mode sl res h sec' rest hr)
    · by_cases hb : isBracketLine line = true
      · rw [if_pos hb] at h
        cases h
        simp only [Option.some.injEq, Prod.mk.injEq] at hr
        obtain ⟨rfl, rfl⟩ := hr
        exact hdr_step_bracket raw line rest0 hp hb
      · rw [if_neg hb] at h
        have hskip : isHOHeader raw = false :=
          isHOHeader_of_not_bracket raw line hp (Bool.eq_false_iff.mpr hb)
        rcases hspl : split_colon line with _ | ⟨k, v⟩ <;> simp only [hspl] at h
        · cases h
        · by_cases hk : k = "Mode".toList
          · rw [if_pos hk] at h
            by_cases h0 : v = "0".toList
            · rw [if_pos h0] at h
              exact hdr_step_skip raw rest0 rest sec' hskip (ih _ _ res h sec' rest hr)
            · rw [if_neg h0] at h
              by_cases h1 : v = "1".toList
              · rw [if_pos h1] at h
                exact hdr_step_skip raw rest0 rest sec' hskip (ih _ _ res h sec' rest hr)
              · rw [if_neg h1] at h
                by_cases h2 : v = "2".toList
                · rw [if_pos h2] at h
                  exact hdr_step_skip raw rest0 rest sec' hskip (ih _ _ res h sec' rest hr)
                · rw [if_neg h2] at h
                  by_cases h3 : v = "3".toList
                  · rw [if_pos h3] at h
                    exact hdr_step_skip raw rest0 rest sec' hskip (ih _ _ res h sec' rest hr)
                  · rw [if_neg h3] at h
                    cases h
          · rw [if_neg hk] at h
            by_cases hsl : k = "StackLeniency".toList
            · rw [if_pos hsl] at h
              rcases hv : parseF v with _ | f <;> simp only [hv] at h
              · cases h
              · exact hdr_step_skip raw rest0 rest sec' hskip (ih _ _ res h sec' rest hr)
            · rw [if_neg hsl] at h
              exact hdr_step_skip raw rest0 rest sec' hskip (ih _ _ res h sec' rest hr)

theorem difficultyLoop_hdr :
    ∀ (lines : List Str) (ar od cs hp sv tick : Option F)
      (res : (Option F × Option F × Option F × Option F × Option F × Option F) ×
        Option (Section × List Str)),
    difficultyLoop lines ar od cs hp sv tick = .ok res →
    ∀ (sec' : Section) (rest : List Str), res.2 = some (sec', rest) →
    hoHeaderCount rest + (if sec' = Section.HitObjects then 1 else 0) ≤ hoHeaderCount lines := by
  intro lines
  induction lines with
  | nil =>
    intro ar od cs hp sv tick res h sec' rest hr
    rw [difficultyLoop] at h
    cases h
    cases hr
  | cons raw rest0 ih =>
    intro ar od cs hp sv tick res h sec' rest hr
    rw [difficultyLoop] at h
    rcases hp' : prepLine raw with _ | line <;> simp only [hp'] at h
    · exact hdr_step_skip raw rest0 rest sec' (isHOHeader_of_prep_none raw hp')
        (ih _ _ _ _ _ _ res h sec' rest hr)
    · by_cases hb : isBracketLine line = true
      · rw [if_pos hb] at h
        cases h
        simp only [Option.some.injEq, Prod.mk.injEq] at hr
        obtain ⟨rfl, rfl⟩ := hr
        exact hdr_step_bracket raw line rest0 hp' hb
      · rw [if_neg hb] at h
        have hskip : isHOHeader raw = false :=
          isHOHeader_of_not_bracket raw line hp' (Bool.eq_false_iff.mpr hb)
        rcases hspl : split_colon line with _ | ⟨k, v⟩ <;> simp only [hspl] at h
        · cases h
        · by_cases h1 : k = "ApproachRate".toList
          · rw [if_pos h1] at h
            rcases hv : parseF v with _ | f <;> simp only [hv] at h
            · cases h
            · exact hdr_step_skip raw rest0 rest sec' hskip (ih _ _ _ _ _ _ res h sec' rest hr)
          · rw [if_neg h1] at h
            by_cases h2 : k = "OverallDifficulty".toList
            · rw [if_pos h2] at h
              rcases hv : parseF v with _ | f <;> simp only [hv] at h
              · cases h
              · exact hdr_step_skip raw rest0 rest sec' hskip (ih _ _ _ _ _ _ res h sec' rest hr)
            · rw [if_neg h2] at h
              by_cases h3 : k = "CircleSize".toList
              · rw [if_pos h3] at h
                rcases hv : parseF v with _ | f <;> simp only [hv] at h
                · cases h
                · exact hdr_step_skip raw rest0 rest sec' hskip
                    (ih _ _ _ _ _ _ res h sec' rest hr)
              · rw [if_neg h3] at h
                by_cases h4 : k = "HPDrainRate".toList
                · rw [if_pos h4] at h
                  rcases hv : parseF v with _ | f <;> simp only [hv] at h
                  · cases h
                  · exact hdr_step_skip raw rest0 rest sec' hskip
                      (ih _ _ _ _ _ _ res h sec' rest hr)
                · rw [if_neg h4] at h
                  by_cases h5 : k = "SliderTickRate".toList
                  · rw [if_pos h5] at h
                    rcases hv : parseF v with _ | f <;> simp only [hv] at h
                    · cases h
                    · exact hdr_step_skip raw rest0 rest sec' hskip
                        (ih _ _ _ _ _ _ res h sec' rest hr)
                  · rw [if_neg h5] at h
                    by_cases h6 : k = "SliderMultiplier".toList
                    · rw [if_pos h6] at h
                      rcases hv : parseF v with _ | f <;> simp only [hv] at h
                      · cases h
                      · exact hdr_step_skip raw rest0 rest sec' hskip
                          (ih _ _ _ _ _ _ res h sec' rest hr)
                    · rw [if_neg h6] at h
                      exact hdr_step_skip raw rest0 rest sec' hskip
                        (ih _ _ _ _ _ _ res h sec' rest hr)

theorem timingPointsLoop_hdr :
    ∀ (lines : List Str) (st : TPState) (res : TPState × Option (Section × List Str)),
    timingPointsLoop lines st = .ok res →
    ∀ (sec' : Section) (rest : List Str), res.2 = some (sec', rest) →
    hoHeaderCount rest + (if sec' = Section.HitObjects then 1 else 0) ≤ hoHeaderCount lines := by
  intro lines
  induction lines with
  | nil =>
    intro st res h sec' rest hr
    rw [timingPointsLoop] at h
    cases h
    cases hr
  | cons raw rest0 ih =>
    intro st res h sec' rest hr
    rw [timingPointsLoop] at h
    rcases hp' : prepLine raw with _ | line <;> simp only [hp'] at h
    · exact hdr_step_skip raw rest0 rest sec' (isHOHeader_of_prep_none raw hp')
        (ih st res h sec' rest hr)
    · by_cases hb : isBracketLine line = true
      · rw [if_pos hb] at h
        cases h
        simp only [Option.some.injEq, Prod.mk.injEq] at hr
        obtain ⟨rfl, rfl⟩ := hr
        exact hdr_step_bracket raw line rest0 hp' hb
      · rw [if_neg hb] at h
        have hskip : isHOHeader raw = false :=
          isHOHeader_of_not_bracket raw line hp' (Bool.eq_false_iff.mpr hb)
        rcases hsp : splitOnChar ',' line with _ | ⟨f0, r0⟩ <;> simp only [hsp] at h
        · cases h
        · rcases hf0 : parseF (trimBoth f0) with _ | t0 <;> simp only [hf0] at h
          · cases h
          · rcases hval : validateF t0 with e | time <;> simp only [hval] at h
            · cases h
            · rcases r0 with _ | ⟨f1, r1⟩ <;> simp only [] at h
              · cases h
              · rcases hf1 : parseF (trimBoth f1) with _ | beatLen <;> simp only [hf1] at h
                · cases h
                · exact hdr_step_skip raw rest0 rest sec' hskip (ih _ res h sec' rest hr)

theorem hitObjectsLoop_hdr :
    ∀ (lines : List Str) (map : Beatmap) (unsorted : Bool) (prev : F)
      (res : Beatmap × Bool × Option (Section × List Str)),
    hitObjectsLoop lines map unsorted prev = .ok res →
    ∀ (sec' : Section) (rest : List Str), res.2.2 = some (sec', rest) →
    hoHeaderCount rest + (if sec' = Section.HitObjects then 1 else 0) ≤ hoHeaderCount lines := by
  intro lines
  induction lines with
  | nil =>
    intro map unsorted prev res h sec' rest hr
    rw [hitObjectsLoop] at h
    cases h
    cases hr
  | cons raw rest0 ih =>
    intro map unsorted prev res h sec' rest hr
    rw [hitObjectsLoop] at h
    rcases hp' : prepLine raw with _ | line <;> simp only [hp'] at h
    · exact hdr_step_skip raw rest0 rest sec' (isHOHeader_of_prep_none raw hp')
        (ih map unsorted prev res h sec' rest hr)
    · by_cases hb : isBracketLine line = true
      · rw [if_pos hb] at h
        cases h
        simp only [Option.some.injEq, Prod.mk.injEq] at hr
        obtain ⟨rfl, rfl⟩ := hr
        exact hdr_step_bracket raw line rest0 hp' hb
      · rw [if_neg hb] at h
        have hskip : isHOHeader raw = false :=
          isHOHeader_of_not_bracket raw line hp' (Bool.eq_false_iff.mpr hb)
        rcases hl : parseHitObjectLine line with e | ⟨obj, counted⟩ <;> simp only [hl] at h
        · cases h
        · exact hdr_step_skip raw rest0 rest sec' hskip (ih _ _ _ res h sec' rest hr)

theorem parse_general_hdr (map : Beatmap) (lines : List Str) (map' : Beatmap)
    (sec' : Section) (rest : List Str)
    (h : parse_general map lines = .ok (map', some (sec', rest))) :
    hoHeaderCount rest + (if sec' = Section.HitObjects then 1 else 0) ≤ hoHeaderCount lines := by
  rw [parse_general] at h
  rcases hg : generalLoop lines none none with e | ⟨mode, sl, nx⟩ <;> simp only [hg] at h
  · cases h
  · cases h
    exact generalLoop_hdr lines none none (mode, sl, some (sec', rest)) hg sec' rest rfl

theorem parse_difficulty_hdr (map : Beatmap) (lines : List Str) (map' : Beatmap)
    (sec' : Section) (rest : List Str)
    (h : parse_difficulty map lines = .ok (map', some (sec', rest))) :
    hoHeaderCount rest + (if sec' = Section.HitObjects then 1 else 0) ≤ hoHeaderCount lines := by
  rw [parse_difficulty] at h
  rcases hd : difficultyLoop lines none none none none none none
    with e | ⟨⟨ar, od, cs, hp, sv, tick⟩, nx⟩ <;> simp only [hd] at h
  · cases h
  · rcases od with _ | odv
    · cases h
    · rcases cs with _ | csv
      · cases h
      · rcases hp with _ | hpv
        · cases h
        · rcases sv with _ | svv
          · cases h
          · rcases tick with _ | tickv
            · cases h
            · cases h
              exact difficultyLoop_hdr lines none none none none none none
                ((ar, some odv, some csv, some hpv, some svv, some tickv),
                  some (sec', rest)) hd sec' rest rfl

theorem parse_timingpoints_hdr (map : Beatmap) (lines : List Str) (map' : Beatmap)
    (sec' : Section) (rest : List Str)
    (h : parse_timingpoints map lines = .ok (map', some (sec', rest))) :
    hoHeaderCount rest + (if sec' = Section.HitObjects then 1 else 0) ≤ hoHeaderCount lines := by
  rw [parse_timingpoints] at h
  rcases hl : timingPointsLoop lines ⟨map, false, false, F.fin (Q.ofNat 0), F.fin (Q.ofNat 0)⟩
    with e | ⟨st, nx⟩ <;> simp only [hl] at h
  · cases h
  · cases h
    exact timingPointsLoop_hdr lines _ (st, some (sec', rest)) hl sec' rest rfl

theorem parse_hitobjects_hdr (map : Beatmap) (lines : List Str) (map' : Beatmap)
    (sec' : Section) (rest : List Str)
    (h : parse_hitobjects map lines = .ok (map', some (sec', rest))) :
    hoHeaderCount rest + (if sec' = Section.HitObjects then 1 else 0) ≤ hoHeaderCount lines := by
  rw [parse_hitobjects] at h
  rcases hl : hitObjectsLoop lines map false (F.fin (Q.ofNat 0))
    with e | ⟨map1, unsorted, nx⟩ <;> simp only [hl] at h
  · cases h
  · cases h
    exact hitObjectsLoop_hdr lines map false (F.fin (Q.ofNat 0))
      (map1, unsorted, some (sec', rest)) hl sec' rest rfl

/-- The sortedness invariant carried through the section-dispatch loop for
inputs with at most one `[HitObjects]` header. -/
abbrev C3Inv (sec : Section) (map : Beatmap) (lines : List Str) : Prop :=
  (sec = Section.HitObjects → map.hit_objects = [] ∧ hoHeaderCount lines = 0) ∧
  (sec ≠ Section.HitObjects →
    List.Chain' (fun a b => F.fle a.start_time b.start_time = true) map.hit_objects ∧
    hoHeaderCount lines ≤ 1 ∧
    (1 ≤ hoHeaderCount lines → map.hit_objects = []))

theorem sectionsLoop_c3 :
    ∀ (fuel : Nat) (map : Beatmap) (sec : Section) (lines : List Str) (m : Beatmap),
    sectionsLoop fuel map sec lines = .ok m →
    C3Inv sec map lines →
    List.Chain' (fun a b => F.fle a.start_time b.start_time = true) m.hit_objects := by
  intro fuel
  induction fuel with
  | zero =>
    intro map sec lines m h
    rw [sectionsLoop.eq_def] at h
    cases h
  | succ fuel ih =>
    intro map sec lines m h hinv
    rw [sectionsLoop.eq_def] at h
    cases sec with
    | NoSection =>
      have hno := hinv.2 (by intro hc; cases hc)
      rcases lines with _ | ⟨raw, rest⟩
      · cases h
        exact hno.1
      · simp only [] at h
        rcases hp : prepLine raw with _ | line <;> simp only [hp] at h
        · have hcc : hoHeaderCount (raw :: rest) = hoHeaderCount rest := by
            rw [hoHeaderCount_cons, isHOHeader_of_prep_none raw hp]
            simp
          refine ih _ _ _ _ h ⟨(by intro hc; cases hc), fun _ => ⟨hno.1, by omega, ?_⟩⟩
          intro h1
          exact hno.2.2 (by omega)
        · by_cases hb : isBracketLine line = true
          · rw [if_pos hb] at h
            have hcc : hoHeaderCount (raw :: rest) = hoHeaderCount rest +
                (if Section.fromStr (bracketContent line) = Section.HitObjects
                 then 1 else 0) := by
              rw [hoHeaderCount_cons, isHOHeader_of_bracket raw line hp hb]
              simp
            by_cases hd : Section.fromStr (bracketContent line) = Section.HitObjects
            · have hcc1 : hoHeaderCount (raw :: rest) = hoHeaderCount rest + 1 := by
                rw [hcc, if_pos hd]
              refine ih _ _ _ _ h ⟨fun _ => ⟨?_, ?_⟩, fun hsec => absurd hd hsec⟩
              · exact hno.2.2 (by omega)
              · have := hno.2.1
                omega
            · have hcc0 : hoHeaderCount (raw :: rest) = hoHeaderCount rest := by
                rw [hcc, if_neg hd]
                omega
              refine ih _ _ _ _ h ⟨fun hsec => absurd hsec hd,
                fun _ => ⟨hno.1, by have := hno.2.1; omega, ?_⟩⟩
              intro h1
              exact hno.2.2 (by omega)
          · rw [if_neg hb] at h
            have hcc : hoHeaderCount (raw :: rest) = hoHeaderCount rest := by
              rw [hoHeaderCount_cons,
                isHOHeader_of_not_bracket raw line hp (Bool.eq_false_iff.mpr hb)]
              simp
            refine ih _ _ _ _ h ⟨(by intro hc; cases hc), fun _ => ⟨hno.1, by omega, ?_⟩⟩
            intro h1
            exact hno.2.2 (by omega)
    | General =>
      have hno := hinv.2 (by intro hc; cases hc)
      rcases hg : parse_general map lines with e | ⟨map', nx⟩ <;> simp only [hg] at h
      · cases h
      · have hsh := (parse_general_shape map lines map' nx hg).1
        rcases nx with _ | ⟨sec', rest⟩
        · cases h
          rw [hsh]
          exact hno.1
        · have hhdr := parse_general_hdr map lines map' sec' rest hg
          refine ih _ _ _ _ h ⟨?_, ?_⟩
          · intro hsec
            have hhdr1 : hoHeaderCount rest + 1 ≤ hoHeaderCount lines := by
              simpa [hsec] using hhdr
            have h1 : 1 ≤ hoHeaderCount lines := by omega
            exact ⟨hsh.trans (hno.2.2 h1), by have := hno.2.1; omega⟩
          · intro hsec
            have hhdr0 : hoHeaderCount rest ≤ hoHeaderCount lines := by omega
            refine ⟨hsh ▸ hno.1, by have := hno.2.1; omega, ?_⟩
            intro h1
            have h2 : 1 ≤ hoHeaderCount lines := by omega
            exact hsh.trans (hno.2.2 h2)
    | Difficulty =>
      have hno := hinv.2 (by intro hc; cases hc)
      rcases hg : parse_difficulty map lines with e | ⟨map', nx⟩ <;> simp only [hg] at h
      · cases h
      · have hsh := (parse_difficulty_shape map lines map' nx hg).1
        rcases nx with _ | ⟨sec', rest⟩
        · cases h
          rw [hsh]
          exact hno.1
        · have hhdr := parse_difficulty_hdr map lines map' sec' rest hg
          refine ih _ _ _ _ h ⟨?_, ?_⟩
          · intro hsec
            have hhdr1 : hoHeaderCount rest + 1 ≤ hoHeaderCount lines := by
              simpa [hsec] using hhdr
            have h1 : 1 ≤ hoHeaderCount lines := by omega
            exact ⟨hsh.trans (hno.2.2 h1), by have := hno.2.1; omega⟩
          · intro hsec
            refine ⟨hsh ▸ hno.1, by have := hno.2.1; omega, ?_⟩
            intro h1
            have h2 : 1 ≤ hoHeaderCount lines := by omega
            exact hsh.trans (hno.2.2 h2)
    | TimingPoints =>
      have hno := hinv.2 (by intro hc; cases hc)
      rcases hg : parse_timingpoints map lines with e | ⟨map', nx⟩ <;> simp only [hg] at h
      · cases h
      · have hsh := (parse_timingpoints_shape map lines map' nx hg).1
        rcases nx with _ | ⟨sec', rest⟩
        · cases h
          rw [hsh]
          exact hno.1
        · have hhdr := parse_timingpoints_hdr map lines map' sec' rest hg
          refine ih _ _ _ _ h ⟨?_, ?_⟩
          · intro hsec
            have hhdr1 : hoHeaderCount rest + 1 ≤ hoHeaderCount lines := by
              simpa [hsec] using hhdr
            have h1 : 1 ≤ hoHeaderCount lines := by omega
            exact ⟨hsh.trans (hno.2.2 h1), by have := hno.2.1; omega⟩
          · intro hsec
            refine ⟨hsh ▸ hno.1, by have := hno.2.1; omega, ?_⟩
            intro h1
            have h2 : 1 ≤ hoHeaderCount lines := by omega
            exact hsh.trans (hno.2.2 h2)
    | HitObjects =>
      obtain ⟨hempty, hcount⟩ := hinv.1 rfl
      rcases hg : parse_hitobjects map lines with e | ⟨map', nx⟩ <;> simp only [hg] at h
      · cases h
      · have hc3 := parse_hitobjects_c3 map lines map' nx hg hempty
        rcases nx with _ | ⟨sec', rest⟩
        · cases h
          exact hc3.1
        · have hhdr := parse_hitobjects_hdr map lines map' sec' rest hg
          refine ih _ _ _ _ h ⟨?_, ?_⟩
          · intro hsec
            have hhdr1 : hoHeaderCount rest + 1 ≤ hoHeaderCount lines := by
              simpa [hsec] using hhdr
            omega
          · intro hsec
            have hhdr0 : hoHeaderCount rest ≤ hoHeaderCount lines := by omega
            refine ⟨hc3.1, by omega, ?_⟩
            intro h1
            omega

theorem hoHeaderCount_firstMeaningful :
    ∀ (lines : List Str), hoHeaderCount (firstMeaningful lines).2 ≤ hoHeaderCount lines := by
  intro lines
  induction lines with
  | nil => exact le_refl 0
  | cons l rest ih =>
    rw [firstMeaningful]
    by_cases hbl : isBlankOrBom l = true
    · rw [if_pos hbl]
      calc hoHeaderCount (firstMeaningful rest).2 ≤ hoHeaderCount rest := ih
        _ ≤ hoHeaderCount (l :: rest) := by rw [hoHeaderCount_cons]; omega
    · rw [if_neg hbl]
      show hoHeaderCount rest ≤ hoHeaderCount (l :: rest)
      rw [hoHeaderCount_cons]
      omega

/-- An input with one HitObjects section whose two circles arrive out of
order (concrete instantiations below). -/
def c3wInput : List Str :=
  ["osu file format v14".toList, "[HitObjects]".toList,
   "0,0,1000,1,0".toList, "0,0,500,1,0".toList]

/-- The beatmap `c3wInput` parses to: the out-of-order insertion was
detected and the objects were sorted. -/
def c3wMap : Beatmap :=
  { Beatmap.default with
    version := 14
    n_circles := 2
    hit_objects :=
      [⟨⟨F.fin (Q.ofNat 0), F.fin (Q.ofNat 0)⟩, F.fin (Q.ofNat 500), .Circle, 0⟩,
       ⟨⟨F.fin (Q.ofNat 0), F.fin (Q.ofNat 0)⟩, F.fin (Q.ofNat 1000), .Circle, 0⟩] }

/-- An input with TWO HitObjects sections: the second section resets
`prev_time` to 0, so the descent from 1000 to 500 across the section
boundary goes undetected and no sort happens. -/
def c3ceInput : List Str :=
  ["osu file format v14".toList, "[HitObjects]".toList, "100,100,1000,1,0".toList,
   "[HitObjects]".toList, "100,100,500,1,0".toList]

/-- The beatmap `c3ceInput` parses to — with its hit objects OUT of order. -/
def c3ceMap : Beatmap :=
  { Beatmap.default with
    version := 14
    n_circles := 2
    hit_objects :=
      [⟨⟨F.fin (Q.ofNat 100), F.fin (Q.ofNat 100)⟩, F.fin (Q.ofNat 1000), .Circle, 0⟩,
       ⟨⟨F.fin (Q.ofNat 100), F.fin (Q.ofNat 100)⟩, F.fin (Q.ofNat 500), .Circle, 0⟩] }

/-- C3, counterexample: `c3ceInput` parses successfully with a non-Mania
effective mode, yet its hit objects are NOT in nondecreasing start-time
order (1000 precedes 500). -/
theorem c3_counterexample :
    Beatmap.parse c3ceInput = .ok c3ceMap ∧
    c3ceMap.mode ≠ GameMode.MNA ∧
    ¬ List.Chain' (fun a b => F.fle a.start_time b.start_time = true) c3ceMap.hit_objects := by
  refine ⟨by decide, by decide, fun hch => ?_⟩
  simp only [c3ceMap, List.chain'_cons, List.chain'_singleton, and_true] at hch
  exact absurd hch (by decide)

/-- C3 (amended): for every input that parses successfully with an
effective mode other than Mania AND containing at most one `[HitObjects]`
section header, the returned hit objects are in nondecreasing start-time
order.  (With two HitObjects sections the out-of-order detection restarts
from time 0, so a descent across the section boundary can go unsorted —
see the counterexample.) -/
theorem c3_single_section_sorted (lines : List Str) (m : Beatmap)
    (h : Beatmap.parse lines = .ok m) (_hm : m.mode ≠ GameMode.MNA)
    (hcount : hoHeaderCount lines ≤ 1) :
    List.Chain' (fun a b => F.fle a.start_time b.start_time = true) m.hit_objects := by
  rw [Beatmap.parse] at h
  rcases hf : findSubstrIdx OSU_FILE_HEADER (firstMeaningful lines).1 with _ | idx <;>
    simp only [hf] at h
  · cases h
  · rcases hv : parseU8 (trimEnd ((firstMeaningful lines).1.drop (idx + OSU_FILE_HEADER.length)))
      with _ | version <;> simp only [hv] at h
    · cases h
    · apply sectionsLoop_c3 _ _ _ _ _ h
      have hrest : hoHeaderCount (firstMeaningful lines).2 ≤ 1 :=
        le_trans (hoHeaderCount_firstMeaningful lines) hcount
      exact ⟨(by intro hc; cases hc), fun _ => ⟨List.chain'_nil, hrest, fun _ => rfl⟩⟩

/-- C3, witness: `c3wInput` (a single HitObjects section with two
out-of-order circles) parses successfully, and the returned hit objects
are sorted by start time. -/
theorem c3_witness :
    Beatmap.parse c3wInput = .ok c3wMap ∧
    hoHeaderCount c3wInput ≤ 1 ∧
    List.Chain' (fun a b => F.fle a.start_time b.start_time = true) c3wMap.hit_objects :=
  ⟨by decide, by decide,
   c3_single_section_sorted c3wInput c3wMap (by decide) (by decide) (by decide)⟩
